import Mathlib

/-!
# json-exporter: extractors, metric collector and config store

A shallow embedding of `extractor/jq.go`, `extractor/jsonpath.go`,
`exporter/collector.go` and, of `cmd/main.go`, `SafeConfig`, `computeTarget` and
`getLastScrapeTime`.

Conventions of the embedding:

* a Go `string` and a Go `[]byte` are both a Lean `String`, read as the sequence
  of its characters (`s.data`); the only positions the code inspects hold
  ASCII characters, where byte and character offsets agree;
* a Go `error` is the text of its `Error()`; a `(T, error)` result is a pair
  `T × Option GoError`, both components kept because the collector uses the
  first one even when the second one is set;
* a Go run-time panic (slice bounds, nil dereference, call of a nil function
  value, `MustNewConstMetric`) is the `panicked` outcome of `Go`;
* the third-party packages (`encoding/json`, `gojq`, `jsonpath`, `strconv`,
  `prometheus`) are not part of the repository: their functions are the fields
  of `Libraries`, and every definition of the repository takes them as a
  parameter; likewise `TemplateLibraries` for what `computeTarget` calls
  (`regexp`, `strings`, `time`, `GoDateFormat`), the instant of `time.Now()`
  being an argument.
-/

namespace JsonExporter

/-- The text of a Go `error`. -/
abbrev GoError := String

deriving instance DecidableEq for Except

/-- A Go computation that returns or panics. -/
inductive Go (α : Type) where
  | ret (a : α)
  | panicked (msg : String)
  deriving DecidableEq

/-- A `float64` seen as data: not-a-number, an infinity, or the rational it denotes. -/
inductive Float64 where
  | NaN
  | Inf (negative : Bool)
  | val (q : ℚ)
  deriving DecidableEq

/-- A dynamically typed Go value (`interface{}`) as `encoding/json` and `gojq`
produce them: `nil`, `float64`, `string`, `bool`, `[]interface{}`,
`map[string]interface{}`; `other` is a value of any other dynamic type
(an `int`, a `*big.Int`, an `error` that `gojq` yields). -/
inductive GoVal where
  | nil
  | float64 (x : Float64)
  | string (s : String)
  | bool (b : Bool)
  | slice (vs : List GoVal)
  | map (kvs : List (String × GoVal))
  | other (dynamicType : String)

/-- The constants `jsonpath.JsonObject`, ..., of the jsonpath package. -/
inductive JsonType where
  | JsonObject
  | JsonArray
  | JsonString
  | JsonNumber
  | JsonNull
  | JsonBool
  deriving DecidableEq

/-- The struct `jsonpath.Result`: the type of the match and its raw bytes. -/
structure Result where
  Type_ : JsonType
  Value : String
  deriving DecidableEq

/-- What the collector reads of a `prometheus.Desc`: name, help and the names of its
variable labels. -/
structure Desc where
  fqName : String
  help : String
  variableLabels : List String
  deriving DecidableEq

/-- The functions of the third-party packages the repository calls. -/
structure Libraries where
  /-- `encoding/json.Unmarshal(json, &input)`. -/
  Unmarshal : String → Except GoError GoVal
  /-- `encoding/json.Marshal(v)`. -/
  Marshal : GoVal → Except GoError String
  /-- The type `*gojq.Query`. -/
  Query : Type
  /-- The type `*gojq.Code`. -/
  Code : Type
  /-- `gojq.Parse(src)`. -/
  gojqParse : String → Except GoError Query
  /-- `gojq.Compile(query)`. -/
  gojqCompile : Query → Except GoError Code
  /-- `code.Run(input).Next()`: the first value of the run and its `ok` flag,
  `(nil, false)` when the run yields nothing. -/
  gojqRunNext : Code → GoVal → GoVal × Bool
  /-- The type `*jsonpath.Path`. -/
  Path : Type
  /-- The type `*jsonpath.Eval`, a stateful evaluator. -/
  Eval : Type
  /-- `jsonpath.ParsePaths(path)` for its one argument: the error, or the one path
  `paths[0]` of the slice it returns (one path for each argument). -/
  ParsePaths : String → Except GoError Path
  /-- `jsonpath.EvalPathsInBytes(json, []*jsonpath.Path{p})`. -/
  EvalPathsInBytes : String → Path → Except GoError Eval
  /-- `eval.Next()`: the next result (a pointer, `none` when nil), its `ok` flag
  and the evaluator after the call. -/
  evalNext : Eval → (Option Result × Bool) × Eval
  /-- The field `eval.Error`. -/
  evalError : Eval → Option GoError
  /-- `strconv.Unquote(s)`. -/
  Unquote : String → Except GoError String
  /-- `strconv.ParseFloat(s, 64)`. -/
  ParseFloat : String → Except GoError Float64
  /-- `strconv.ParseBool(s)`. -/
  ParseBool : String → Except GoError Bool
  /-- The `%q` verb of `fmt`. -/
  quoted : String → String
  /-- The error of `prometheus.NewConstMetric(desc, valueType, value, labelValues...)`,
  which does not depend on the value; `none` when the metric is built. -/
  NewConstMetricError : Desc → List String → Option GoError

/-- Go `len(s)`. -/
def len (s : String) : Nat := s.data.length

/-- Go `s[i]`, `none` outside the bounds (where Go panics). -/
def byteAt (s : String) (i : Nat) : Option Char := s.data[i]?

/-- Go `s[1:]`, for `1 ≤ len(s)`. -/
def sliceFrom1 (s : String) : String := String.mk (s.data.drop 1)

/-- Go `s[1 : len(s)-1]`, for `2 ≤ len(s)`. -/
def sliceInner (s : String) : String := String.mk ((s.data.drop 1).take (len s - 2))

/-- The message of `fmt.Errorf("failed to parse value as float; value: %q; err: %w", bytes, err)`. -/
def parseValueError (L : Libraries) (bytes : String) (err : GoError) : GoError :=
  "failed to parse value as float; value: " ++ L.quoted bytes ++ "; err: " ++ err

/-- The literal `-1.0`. -/
def minusOne : Float64 := Float64.val (-1)

/-! ## extractor/extractor.go and the two iterators -/

/-- An `ObjectIterator` (`func() ([]byte, bool, error)`) is one of the three closures the
repository builds, with the variables it captures: the array closure of
`JqExtractor.ExtractObject` (`vv`, `idx`), its object closure (`vm`), and the closure of
`JsonPathExtractor.ExtractObject` (`eval`). -/
inductive ObjectIterator (L : Libraries) where
  | jqArray (vv : List GoVal) (idx : Nat)
  | jqObject (vm : String)
  | jsonPath (eval : L.Eval)

/-- One call `iterator()`: the triple `(json, exists, err)` it returns and the closure
with its captured variables after the call. -/
def ObjectIterator.call (L : Libraries) :
    ObjectIterator L → Go ((String × Bool × Option GoError) × ObjectIterator L)
  | .jqArray vv idx =>
    if idx = vv.length then
      .ret (("", false, none), .jqArray vv idx)
    else
      match vv[idx]? with
      | none => .panicked "index out of range"
      | some x =>
        match L.Marshal x with
        | .error err => .ret (("", false, some err), .jqArray vv idx)
        | .ok vm => .ret ((vm, true, none), .jqArray vv (idx + 1))
  | .jqObject vm => .ret ((vm, false, none), .jqObject vm)
  | .jsonPath eval =>
    match L.evalNext eval with
    | ((none, _), _) => .panicked "invalid memory address or nil pointer dereference"
    | ((some results, ok), eval2) => .ret ((results.Value, ok, none), .jsonPath eval2)

/-! ## extractor/jq.go -/

/-- The method `JqExtractor.parseValue`. -/
def JqExtractor.parseValue (L : Libraries) (bytes : String) : Float64 × Option GoError :=
  match L.ParseFloat bytes with
  | .error err => (minusOne, some (parseValueError L bytes err))
  | .ok value => (value, none)

/-- The method `JqExtractor.extract`: the `ok` flag of `Next()` is dropped. -/
def JqExtractor.extract (L : Libraries) (input : GoVal) (path : String) :
    GoVal × Option GoError :=
  match L.gojqParse path with
  | .error err => (.nil, some err)
  | .ok query =>
    match L.gojqCompile query with
    | .error err => (.nil, some err)
    | .ok code => ((L.gojqRunNext code input).1, none)

/-- The method `JqExtractor.sanitizeValue`. -/
def JqExtractor.sanitizeValue (L : Libraries) (v : GoVal) : Float64 × Option GoError :=
  match v with
  | .float64 value => (value, none)
  | .string str =>
    let str2 := match L.Unquote str with
      | .ok l => l
      | .error _ => str
    match L.ParseFloat str2 with
    | .ok value => (value, none)
    | .error err => (minusOne, some err)
  | .nil => (Float64.NaN, none)
  | .bool boolValue => (if boolValue then Float64.val 1 else Float64.val 0, none)
  | _ => (minusOne, some "error while sanitizing value unknown type")

/-- The method `JqExtractor.ExtractValue`. -/
def JqExtractor.ExtractValue (L : Libraries) (json : String) (path : String) :
    Float64 × Option GoError :=
  if len path < 1 ∨ byteAt path 0 ≠ some '$' then
    JqExtractor.parseValue L path
  else
    match L.Unmarshal json with
    | .error err => (minusOne, some err)
    | .ok input =>
      match JqExtractor.extract L input (sliceFrom1 path) with
      | (_, some err) => (minusOne, some err)
      | (v, none) => JqExtractor.sanitizeValue L v

/-- The inner loop of `JqExtractor.ExtractLabels` over the entries of an array: every
entry is appended as a label of its own; `none` at the first entry that is not a
string. -/
def JqExtractor.appendEntries : List GoVal → List String → Option (List String)
  | [], labels => some labels
  | .string vs :: rest, labels => JqExtractor.appendEntries rest (labels ++ [vs])
  | _ :: _, _ => none

/-- The message of the non-string entry error of `JqExtractor.ExtractLabels`. -/
def JqExtractor.entryError (path : String) : GoError :=
  "error while extracting labels: path '" ++ path ++
    "' value is an array but contains a non string type"

/-- The message of the wrong type error of `JqExtractor.ExtractLabels`. -/
def JqExtractor.typeError (path : String) : GoError :=
  "error while extracting labels: path '" ++ path ++
    "' value type is invalid - should be string or []string"

/-- The loop `for _, path := range paths` of `JqExtractor.ExtractLabels`, from the labels
gathered so far. -/
def JqExtractor.labelsLoop (L : Libraries) (input : GoVal) :
    List String → List String → Go (List String × Option GoError)
  | [], labels => .ret (labels, none)
  | path :: rest, labels =>
    if len path < 1 then
      .panicked "slice bounds out of range [1:0]"
    else
      match JqExtractor.extract L input (sliceFrom1 path) with
      | (_, some err) => .ret ([], some err)
      | (vv, none) =>
        match vv with
        | .slice vi =>
          match JqExtractor.appendEntries vi labels with
          | none => .ret ([], some (JqExtractor.entryError path))
          | some labels2 => JqExtractor.labelsLoop L input rest labels2
        | .string vi => JqExtractor.labelsLoop L input rest (labels ++ [vi])
        | _ => .ret ([], some (JqExtractor.typeError path))

/-- The method `JqExtractor.ExtractLabels`. -/
def JqExtractor.ExtractLabels (L : Libraries) (json : String) (paths : List String) :
    Go (List String × Option GoError) :=
  match L.Unmarshal json with
  | .error err => .ret ([], some err)
  | .ok input => JqExtractor.labelsLoop L input paths []

/-- The message of the wrong type error of `JqExtractor.ExtractObject`. -/
def JqExtractor.objectError (path : String) : GoError :=
  "error while extracting object: path '" ++ path ++ "' value is not an object"

/-- The method `JqExtractor.ExtractObject`: the iterator (`none` when nil) and the error. -/
def JqExtractor.ExtractObject (L : Libraries) (json : String) (path : String) :
    Go (Option (ObjectIterator L) × Option GoError) :=
  match L.Unmarshal json with
  | .error err => .ret (none, some err)
  | .ok input =>
    if len path < 1 then
      .panicked "slice bounds out of range [1:0]"
    else
      match JqExtractor.extract L input (sliceFrom1 path) with
      | (_, some err) => .ret (none, some err)
      | (v, none) =>
        match v with
        | .slice vv => .ret (some (.jqArray vv 0), none)
        | .map kvs =>
          match L.Marshal (.map kvs) with
          | .ok vm => .ret (some (.jqObject vm), none)
          | .error err => .ret (some (.jqObject ""), some err)
        | _ => .ret (none, some (JqExtractor.objectError path))

/-! ## extractor/jsonpath.go -/

/-- The method `JsonPathExtractor.parseValue`. -/
def JsonPathExtractor.parseValue (L : Libraries) (bytes : String) : Float64 × Option GoError :=
  match L.ParseFloat bytes with
  | .error err => (minusOne, some (parseValueError L bytes err))
  | .ok value => (value, none)

/-- The method `JsonPathExtractor.compilePath`: it panics on the empty path
(`path[len(path)-1]`). -/
def JsonPathExtractor.compilePath (L : Libraries) (path : String) : Go (Except GoError L.Path) :=
  if len path < 1 then
    .panicked "index out of range [-1]"
  else
    let path2 := if byteAt path (len path - 1) ≠ some '+' then path ++ "+" else path
    match L.ParsePaths path2 with
    | .error err => .ret (.error err)
    | .ok p => .ret (.ok p)

/-- The last lines of `JsonPathExtractor.sanitizeValue`: `-1.0` with the error when there is one. -/
def JsonPathExtractor.checked (r : Float64 × Option GoError) : Float64 × Option GoError :=
  match r with
  | (_, some err) => (minusOne, some err)
  | (value, none) => (value, none)

/-- The method `JsonPathExtractor.sanitizeValue`; the string case panics on a value shorter
than two bytes (`v.Value[1 : len(v.Value)-1]`). -/
def JsonPathExtractor.sanitizeValue (L : Libraries) (v : Result) :
    Go (Float64 × Option GoError) :=
  match v.Type_ with
  | .JsonNumber => .ret (JsonPathExtractor.checked (JsonPathExtractor.parseValue L v.Value))
  | .JsonString =>
    if len v.Value < 2 then
      .panicked "slice bounds out of range"
    else
      .ret (JsonPathExtractor.checked (JsonPathExtractor.parseValue L (sliceInner v.Value)))
  | .JsonNull => .ret (Float64.NaN, none)
  | .JsonBool =>
    match L.ParseBool v.Value with
    | .ok boolValue => .ret (if boolValue then Float64.val 1 else Float64.val 0, none)
    | .error err => .ret (minusOne, some err)
  | _ => .ret (JsonPathExtractor.checked (JsonPathExtractor.parseValue L v.Value))

/-- The method `JsonPathExtractor.ExtractValue`. -/
def JsonPathExtractor.ExtractValue (L : Libraries) (json : String) (path : String) :
    Go (Float64 × Option GoError) :=
  if len path < 1 ∨ byteAt path 0 ≠ some '$' then
    .ret (JsonPathExtractor.parseValue L path)
  else
    match JsonPathExtractor.compilePath L path with
    | .panicked msg => .panicked msg
    | .ret (.error err) => .ret (minusOne, some err)
    | .ret (.ok p) =>
      match L.EvalPathsInBytes json p with
      | .error err => .ret (minusOne, some err)
      | .ok eval =>
        match L.evalNext eval with
        | ((some result, true), _) => JsonPathExtractor.sanitizeValue L result
        | (_, eval2) =>
          match L.evalError eval2 with
          | some err => .ret (minusOne, some err)
          | none => .ret (minusOne, some "Path not found")

/-- The body of the loop of `JsonPathExtractor.ExtractLabels` for one path: the label to
store in the slot of the path, `none` on the three `continue` branches. -/
def JsonPathExtractor.labelOf (L : Libraries) (json : String) (path : String) :
    Go (Option String) :=
  match JsonPathExtractor.compilePath L path with
  | .panicked msg => .panicked msg
  | .ret (.error _) => .ret none
  | .ret (.ok p) =>
    match L.EvalPathsInBytes json p with
    | .error _ => .ret none
    | .ok eval =>
      match L.evalNext eval with
      | ((some result, true), _) =>
        match L.Unquote result.Value with
        | .ok l => .ret (some l)
        | .error _ => .ret (some result.Value)
      | _ => .ret none

/-- The loop `for i, path := range paths` of `JsonPathExtractor.ExtractLabels`, at index `i`
with the slots `labels`. -/
def JsonPathExtractor.labelsLoop (L : Libraries) (json : String) :
    List String → Nat → List String → Go (List String)
  | [], _, labels => .ret labels
  | path :: rest, i, labels =>
    match JsonPathExtractor.labelOf L json path with
    | .panicked msg => .panicked msg
    | .ret none => JsonPathExtractor.labelsLoop L json rest (i + 1) labels
    | .ret (some l) => JsonPathExtractor.labelsLoop L json rest (i + 1) (labels.set i l)

/-- The method `JsonPathExtractor.ExtractLabels`: the slots start as `len(paths)` empty
strings and the error is always nil. -/
def JsonPathExtractor.ExtractLabels (L : Libraries) (json : String) (paths : List String) :
    Go (List String × Option GoError) :=
  match JsonPathExtractor.labelsLoop L json paths 0 (List.replicate paths.length "") with
  | .panicked msg => .panicked msg
  | .ret labels => .ret (labels, none)

/-- The method `JsonPathExtractor.ExtractObject`. -/
def JsonPathExtractor.ExtractObject (L : Libraries) (json : String) (path : String) :
    Go (Option (ObjectIterator L) × Option GoError) :=
  match JsonPathExtractor.compilePath L path with
  | .panicked msg => .panicked msg
  | .ret (.error err) => .ret (none, some err)
  | .ret (.ok p) =>
    match L.EvalPathsInBytes json p with
    | .error err => .ret (none, some err)
    | .ok eval => .ret (some (.jsonPath eval), none)

/-! ## The interface `Extractor` -/

/-- The two implementations of the interface `Extractor`. -/
inductive Extractor where
  | jq
  | jsonPath
  deriving DecidableEq

/-- The interface method `ExtractValue`. -/
def Extractor.ExtractValue (L : Libraries) (e : Extractor) (json : String) (path : String) :
    Go (Float64 × Option GoError) :=
  match e with
  | .jq => .ret (JqExtractor.ExtractValue L json path)
  | .jsonPath => JsonPathExtractor.ExtractValue L json path

/-- The interface method `ExtractLabels`. -/
def Extractor.ExtractLabels (L : Libraries) (e : Extractor) (json : String)
    (paths : List String) : Go (List String × Option GoError) :=
  match e with
  | .jq => JqExtractor.ExtractLabels L json paths
  | .jsonPath => JsonPathExtractor.ExtractLabels L json paths

/-- The interface method `ExtractObject`. -/
def Extractor.ExtractObject (L : Libraries) (e : Extractor) (json : String) (path : String) :
    Go (Option (ObjectIterator L) × Option GoError) :=
  match e with
  | .jq => JqExtractor.ExtractObject L json path
  | .jsonPath => JsonPathExtractor.ExtractObject L json path

/-! ## exporter/collector.go -/

/-- The struct `JsonMetric`. -/
structure JsonMetric where
  Desc : Desc
  KeyExtractorPath : String
  ValueExtractorPath : String
  LabelsExtractorPaths : List String
  Extractor : Extractor
  deriving DecidableEq

/-- The struct `JsonMetricCollector`, without its logger. -/
structure JsonMetricCollector where
  JsonMetrics : List JsonMetric
  Data : String

/-- A metric built by `prometheus.MustNewConstMetric(desc, prometheus.UntypedValue, value,
labelValues...)`: the sample the collector sends on its channel. -/
structure Metric where
  desc : Desc
  value : Float64
  labelValues : List String
  deriving DecidableEq

/-- The function `prometheus.MustNewConstMetric`: it panics with the error of
`NewConstMetric`. -/
def MustNewConstMetric (L : Libraries) (desc : Desc) (value : Float64)
    (labelValues : List String) : Go Metric :=
  match L.NewConstMetricError desc labelValues with
  | some err => .panicked err
  | none => .ret (Metric.mk desc value labelValues)

/-- How a run of `Collect` ends: it returns, it panics, or the loop is still running when
the fuel of the model is used up. -/
inductive Ending where
  | returned
  | panicked (msg : String)
  | running
  deriving DecidableEq

/-- A run of `Collect`: the metrics sent on the channel, in order, and how the run ends. -/
structure Run where
  sent : List Metric
  ending : Ending
  deriving DecidableEq

/-- The loop `for { result, ok, err := iterator(); ... }` of the object branch of `Collect`
for the metric `m`: `fuel` bounds the number of calls of the iterator, `sent` is what the
channel has received so far. A nil iterator panics at its first call. -/
def objectLoop (L : Libraries) (m : JsonMetric) :
    Nat → Option (ObjectIterator L) → List Metric → Run
  | 0, _, sent => Run.mk sent .running
  | _ + 1, none, sent =>
    Run.mk sent (.panicked "invalid memory address or nil pointer dereference")
  | fuel + 1, some iterator, sent =>
    match ObjectIterator.call L iterator with
    | .panicked msg => Run.mk sent (.panicked msg)
    | .ret ((_, _, some _), iterator2) => objectLoop L m fuel (some iterator2) sent
    | .ret ((result, ok, none), iterator2) =>
      if ok then
        match Extractor.ExtractValue L m.Extractor result m.ValueExtractorPath with
        | .panicked msg => Run.mk sent (.panicked msg)
        | .ret (_, some _) => objectLoop L m fuel (some iterator2) sent
        | .ret (floatValue, none) =>
          match Extractor.ExtractLabels L m.Extractor result m.LabelsExtractorPaths with
          | .panicked msg => Run.mk sent (.panicked msg)
          | .ret (labels, _) =>
            match MustNewConstMetric L m.Desc floatValue labels with
            | .panicked msg => Run.mk sent (.panicked msg)
            | .ret metric => objectLoop L m fuel (some iterator2) (sent ++ [metric])
      else
        Run.mk sent .returned

/-- The loop `for _, m := range mc.JsonMetrics` of `Collect` over the metrics still to
collect; an error of `ExtractObject` is logged and the loop over the iterator is entered
all the same. -/
def collectLoop (L : Libraries) (fuel : Nat) (data : String) :
    List JsonMetric → List Metric → Run
  | [], sent => Run.mk sent .returned
  | m :: rest, sent =>
    if m.ValueExtractorPath = "" then
      match Extractor.ExtractValue L m.Extractor data m.KeyExtractorPath with
      | .panicked msg => Run.mk sent (.panicked msg)
      | .ret (_, some _) => collectLoop L fuel data rest sent
      | .ret (floatValue, none) =>
        match Extractor.ExtractLabels L m.Extractor data m.LabelsExtractorPaths with
        | .panicked msg => Run.mk sent (.panicked msg)
        | .ret (labels, _) =>
          match MustNewConstMetric L m.Desc floatValue labels with
          | .panicked msg => Run.mk sent (.panicked msg)
          | .ret metric => collectLoop L fuel data rest (sent ++ [metric])
    else
      match Extractor.ExtractObject L m.Extractor data m.KeyExtractorPath with
      | .panicked msg => Run.mk sent (.panicked msg)
      | .ret (iterator, _) =>
        match objectLoop L m fuel iterator sent with
        | Run.mk sent2 .returned => collectLoop L fuel data rest sent2
        | run => run

/-- The method `JsonMetricCollector.Collect`; `fuel` bounds the calls of one iterator. -/
def JsonMetricCollector.Collect (L : Libraries) (fuel : Nat) (mc : JsonMetricCollector) : Run :=
  collectLoop L fuel mc.Data mc.JsonMetrics []

/-! ## cmd/main.go: SafeConfig -/

/-- The struct `SafeConfig` over the type `config.Config` of the package `config`: its
lock guards the one field `C`, which is all a sequential run sees. -/
structure SafeConfig (Config : Type) where
  C : Config

/-- The method `SafeConfig.GetConfig`. -/
def SafeConfig.GetConfig {Config : Type} (sc : SafeConfig Config) : Config := sc.C

/-- The method `SafeConfig.SetConfig`. -/
def SafeConfig.SetConfig {Config : Type} (_sc : SafeConfig Config) (c : Config) :
    SafeConfig Config := SafeConfig.mk c

/-- The method `SafeConfig.reloadConfig`, given what `config.LoadConfig` returns for each
file: the store after the call and the error returned. -/
def SafeConfig.reloadConfig {Config : Type} (LoadConfig : String → Config × Option GoError)
    (sc : SafeConfig Config) (configFile : String) : SafeConfig Config × Option GoError :=
  match LoadConfig configFile with
  | (_, some err) => (sc, some err)
  | (config, none) => (sc.SetConfig config, none)

/-! ## The libraries on a fragment

For the concrete runs: the behaviour of the third-party packages on compact JSON
documents, on the jq queries `.`, `.name` and `empty`, and on the JSONPath expressions
`$.name` and `$.name[*]`. A `GoVal.map` lists its keys in increasing order, the order in
which `Marshal` writes them. -/

namespace Fragment

/-- The double quote. -/
def dquote : Char := Char.ofNat 34

/-- The backslash. -/
def backslash : Char := Char.ofNat 92

/-- A string between double quotes, its quotes and backslashes escaped. -/
def quoted (s : String) : String :=
  String.mk ([dquote] ++ s.data.flatMap (fun c =>
    if c = dquote ∨ c = backslash then [backslash, c] else [c]) ++ [dquote])

mutual
/-- The compact JSON text of a value, as `encoding/json.Marshal` writes it; integers are
the numbers of the fragment. -/
def encode : GoVal → Except GoError String
  | .nil => .ok "null"
  | .float64 (.val q) =>
    if q.den = 1 then .ok (toString q.num) else .error "json: number outside the fragment"
  | .float64 _ => .error "json: unsupported value"
  | .string s => .ok (quoted s)
  | .bool b => .ok (if b then "true" else "false")
  | .slice vs =>
    match encodeEntries vs with
    | .ok s => .ok ("[" ++ s ++ "]")
    | .error err => .error err
  | .map kvs =>
    match encodeFields kvs with
    | .ok s => .ok ("\x7b" ++ s ++ "\x7d")
    | .error err => .error err
  | .other _ => .error "json: unsupported type"
/-- The entries of an array, separated by commas. -/
def encodeEntries : List GoVal → Except GoError String
  | [] => .ok ""
  | [v] => encode v
  | v :: vs =>
    match encode v, encodeEntries vs with
    | .ok a, .ok b => .ok (a ++ "," ++ b)
    | .error err, _ => .error err
    | _, .error err => .error err
/-- The fields of an object, separated by commas. -/
def encodeFields : List (String × GoVal) → Except GoError String
  | [] => .ok ""
  | [(k, v)] =>
    match encode v with
    | .ok a => .ok (quoted k ++ ":" ++ a)
    | .error err => .error err
  | (k, v) :: kvs =>
    match encode v, encodeFields kvs with
    | .ok a, .ok b => .ok (quoted k ++ ":" ++ a ++ "," ++ b)
    | .error err, _ => .error err
    | _, .error err => .error err
end

/-- A number of the documents. -/
def num (n : Int) : GoVal := .float64 (.val n)

/-- The first element of the array of `itemsDoc`. -/
def itemA : GoVal := .map [("id", .string "a"), ("v", num 1)]

/-- The second element of the array of `itemsDoc`. -/
def itemB : GoVal := .map [("id", .string "b"), ("v", num 2)]

/-- The document with an array of two objects under `items`. -/
def itemsDoc : GoVal := .map [("items", .slice [itemA, itemB])]

/-- The document with the number 5 under `n`. -/
def numberDoc : GoVal := .map [("n", num 5)]

/-- The document with the array of the strings `a` and `b` under `l`. -/
def listDoc : GoVal := .map [("l", .slice [.string "a", .string "b"])]

/-- The documents `Unmarshal` knows. -/
def documents : List GoVal := [itemsDoc, itemA, itemB, numberDoc, listDoc]

/-- The text of a document of the fragment, empty for a value that has none. -/
def text (v : GoVal) : String :=
  match encode v with
  | .ok s => s
  | .error _ => ""

/-- The document whose compact text is `json`, among the given ones. -/
def decode (json : String) : List GoVal → Except GoError GoVal
  | [] => .error "invalid character looking for beginning of value"
  | d :: ds =>
    match encode d with
    | .ok s => if s = json then .ok d else decode json ds
    | .error _ => decode json ds

/-- The value under a key of an object. -/
def lookup (key : String) : List (String × GoVal) → Option GoVal
  | [] => none
  | (k, v) :: kvs => if k = key then some v else lookup key kvs

/-- Whether the characters are a name: letters, at least one. -/
def isName (cs : List Char) : Bool := !cs.isEmpty && cs.all Char.isAlpha

/-- The parser of jq on the fragment: `.`, `.name` and `empty`. -/
def gojqParse (src : String) : Except GoError String :=
  match src.data with
  | ['.'] => .ok src
  | '.' :: name => if isName name then .ok src else .error "unexpected token"
  | _ => if src = "empty" then .ok src else .error "unexpected token"

/-- The first value of a jq run: `.` yields its input, `.name` the field of an object
(null when the object has no such field or the input is null, an error value on any other
input), `empty` yields nothing. -/
def gojqRunNext (code : String) (input : GoVal) : GoVal × Bool :=
  match code.data with
  | ['.'] => (input, true)
  | '.' :: name =>
    match input with
    | .map kvs => ((lookup (String.mk name) kvs).getD .nil, true)
    | .nil => (.nil, true)
    | _ => (.other "error", true)
  | _ => (.nil, false)

/-- An evaluator of the jsonpath package: the results it still has to yield, and its
field `Error`. -/
structure Eval where
  pending : List Result
  Error : Option GoError

/-- The JSON type of a value. -/
def typeOf : GoVal → JsonType
  | .nil => .JsonNull
  | .float64 _ => .JsonNumber
  | .string _ => .JsonString
  | .bool _ => .JsonBool
  | .slice _ => .JsonArray
  | .map _ => .JsonObject
  | .other _ => .JsonNull

/-- The result for a matched value: its type and its raw text. -/
def resultOf (v : GoVal) : Result := Result.mk (typeOf v) (text v)

/-- The name and the star of a JSONPath expression `$.name+` or `$.name[*]+`. -/
def splitPath (path : String) : Option (String × Bool) :=
  match path.data with
  | '$' :: '.' :: rest =>
    let name := rest.takeWhile Char.isAlpha
    let tail := rest.dropWhile Char.isAlpha
    if isName name ∧ tail = ['+'] then some (String.mk name, false)
    else if isName name ∧ tail = ['[', '*', ']', '+'] then some (String.mk name, true)
    else none
  | _ => none

/-- The parser of JSONPath on the fragment. -/
def ParsePaths (path : String) : Except GoError String :=
  match splitPath path with
  | some _ => .ok path
  | none => .error "unexpected token"

/-- The matches of a JSONPath expression in a document: the field, or with a star the
elements of the array under it. -/
def select (path : String) (doc : GoVal) : List Result :=
  match splitPath path, doc with
  | some (name, star), .map kvs =>
    match lookup name kvs, star with
    | some v, false => [resultOf v]
    | some (.slice vs), true => vs.map resultOf
    | _, _ => []
  | _, _ => []

/-- The evaluator of one path over a payload; a payload that is no document gives an
evaluator that yields nothing and holds the error. -/
def EvalPathsInBytes (json : String) (p : String) : Except GoError Eval :=
  match decode json documents with
  | .ok doc => .ok (Eval.mk (select p doc) none)
  | .error err => .ok (Eval.mk [] (some err))

/-- The method `Next` of an evaluator: the next pending result, `(nil, false)` when
there is none. -/
def evalNext (eval : Eval) : (Option Result × Bool) × Eval :=
  match eval.pending with
  | [] => ((none, false), eval)
  | r :: rest => ((some r, true), Eval.mk rest eval.Error)

/-- The function `strconv.Unquote` on a string between double quotes that holds neither a
quote nor a backslash. -/
def Unquote (s : String) : Except GoError String :=
  match s.data with
  | q :: rest =>
    let inner := rest.dropLast
    if q = dquote ∧ rest.getLast? = some dquote ∧ dquote ∉ inner ∧ backslash ∉ inner then
      .ok (String.mk inner)
    else .error "invalid syntax"
  | [] => .error "invalid syntax"

/-- The number written by a list of decimal digits, `none` when one is no digit or the
list is empty. -/
def digits (cs : List Char) : Option Nat :=
  if cs.isEmpty ∨ ¬ cs.all Char.isDigit then none
  else some (cs.foldl (fun n c => 10 * n + (c.toNat - 48)) 0)

/-- A decimal without sign: digits, then possibly a point and digits. -/
def decimal (cs : List Char) : Option ℚ :=
  match digits (cs.takeWhile Char.isDigit), cs.dropWhile Char.isDigit with
  | some n, [] => some n
  | some n, '.' :: frac =>
    match digits frac with
    | some f => some (mkRat (n * 10 ^ frac.length + f) (10 ^ frac.length))
    | none => none
  | _, _ => none

/-- The function `strconv.ParseFloat` on plain decimals, with or without a minus sign. -/
def ParseFloat (s : String) : Except GoError Float64 :=
  match s.data with
  | '-' :: cs =>
    match decimal cs with
    | some q => .ok (.val (-q))
    | none => .error ("strconv.ParseFloat: parsing " ++ quoted s ++ ": invalid syntax")
  | cs =>
    match decimal cs with
    | some q => .ok (.val q)
    | none => .error ("strconv.ParseFloat: parsing " ++ quoted s ++ ": invalid syntax")

/-- The function `strconv.ParseBool`. -/
def ParseBool (s : String) : Except GoError Bool :=
  if s ∈ ["1", "t", "T", "TRUE", "true", "True"] then .ok true
  else if s ∈ ["0", "f", "F", "FALSE", "false", "False"] then .ok false
  else .error ("strconv.ParseBool: parsing " ++ quoted s ++ ": invalid syntax")

/-- The check of `prometheus.NewConstMetric`: as many label values as the descriptor has
variable labels. -/
def NewConstMetricError (desc : Desc) (labelValues : List String) : Option GoError :=
  if labelValues.length = desc.variableLabels.length then none
  else some "inconsistent label cardinality"

end Fragment

/-- The libraries on the fragment. -/
def fragment : Libraries where
  Unmarshal := fun json => Fragment.decode json Fragment.documents
  Marshal := Fragment.encode
  Query := String
  Code := String
  gojqParse := Fragment.gojqParse
  gojqCompile := fun query => .ok query
  gojqRunNext := Fragment.gojqRunNext
  Path := String
  Eval := Fragment.Eval
  ParsePaths := Fragment.ParsePaths
  EvalPathsInBytes := Fragment.EvalPathsInBytes
  evalNext := Fragment.evalNext
  evalError := fun eval => eval.Error
  Unquote := Fragment.Unquote
  ParseFloat := Fragment.ParseFloat
  ParseBool := Fragment.ParseBool
  quoted := Fragment.quoted
  NewConstMetricError := Fragment.NewConstMetricError

/-! ## Definitions used by the statements -/

/-- The result of the call number `n + 1` of an iterator, counted from the state `it`; a
panic of an earlier call is the result. -/
def ObjectIterator.later (L : Libraries) :
    Nat → ObjectIterator L → Go ((String × Bool × Option GoError) × ObjectIterator L)
  | 0, it => ObjectIterator.call L it
  | n + 1, it =>
    match ObjectIterator.call L it with
    | .panicked msg => .panicked msg
    | .ret (_, it2) => ObjectIterator.later L n it2

/-- A descriptor without labels. -/
def plainDesc : Desc := Desc.mk "example_value" "help" []

/-- A descriptor with the one label `id`. -/
def idDesc : Desc := Desc.mk "example_item" "help" ["id"]

/-- An object-mode definition of the jq backend whose object path `$.n` selects a number. -/
def numberAsObject : JsonMetric := JsonMetric.mk plainDesc "$.n" "$.v" [] .jq

/-- A value-mode definition of the jq backend for the number under `n`. -/
def numberValue : JsonMetric := JsonMetric.mk plainDesc "$.n" "" [] .jq

/-- An object-mode definition of the jq backend whose object path `$.` selects the whole
payload. -/
def wholeObject : JsonMetric := JsonMetric.mk idDesc "$." "$.v" ["$.id"] .jq

/-- The message of a nil dereference and of a call of a nil function value. -/
def nilDereference : String := "invalid memory address or nil pointer dereference"

/-- A loader for the runs of the config store: the file `good.yml` loads as the config
`new`, any other file fails to parse. -/
def loadExample (configFile : String) : String × Option GoError :=
  if configFile = "good.yml" then ("new", none) else ("", some "yaml: unmarshal errors")

/-- The sample the collector builds from one element `v` of the selected array, for the
object-mode definition `m` of the jq backend: `v` marshals to a fragment on which
`ExtractValue` with the value path succeeds with the value of the sample, `ExtractLabels`
with the label paths returns the labels of the sample (with or without an error), and
`NewConstMetric` accepts these labels for the descriptor of `m`. -/
def IsSampleOf (L : Libraries) (m : JsonMetric) (v : GoVal) (s : Metric) : Prop :=
  ∃ (fragmentJson : String) (labelsErr : Option GoError),
    L.Marshal v = .ok fragmentJson ∧
    JqExtractor.ExtractValue L fragmentJson m.ValueExtractorPath = (s.value, none) ∧
    JqExtractor.ExtractLabels L fragmentJson m.LabelsExtractorPaths
      = .ret (s.labelValues, labelsErr) ∧
    L.NewConstMetricError m.Desc s.labelValues = none ∧
    s.desc = m.Desc

/-- An object-mode definition of the jq backend over the array under `items`, with the
value path `$.v` and the label path `$.id`, both relative to an element. -/
def itemsMetric : JsonMetric := JsonMetric.mk idDesc "$.items" "$.v" ["$.id"] .jq

/-- The strings of an array whose entries are all strings, `none` when an entry is not a
string. -/
def stringEntries : List GoVal → Option (List String)
  | [] => some []
  | .string s :: rest => (stringEntries rest).map (fun ss => s :: ss)
  | _ :: _ => none

/-- The label values a resolved value stands for with the jq backend: the string itself,
or each entry of an array of strings as a label value of its own; `none` for an array
with an entry that is not a string and for a value that is neither a string nor an
array. -/
def labelValuesOf : GoVal → Option (List String)
  | .string s => some [s]
  | .slice vs => stringEntries vs
  | _ => none

/-- The slot of one path in the result of `JsonPathExtractor.ExtractLabels`: the label the
body of the loop stores, the empty string the slot starts with when it stores none. -/
def JsonPathExtractor.slot (L : Libraries) (json : String) (path : String) : String :=
  match JsonPathExtractor.labelOf L json path with
  | .ret (some l) => l
  | _ => ""

/-- A resolved value that is no label with the jq backend: an array with an entry that is
not a string, or a value that is neither a string nor an array. -/
def NotALabel (v : GoVal) : Prop :=
  (∃ vs, v = .slice vs ∧ ∃ entry ∈ vs, ∀ s, entry ≠ .string s) ∨
    ((∀ s, v ≠ .string s) ∧ (∀ vs, v ≠ .slice vs))

/-- A value-mode definition of the jq backend whose value path `$.zz` names a field the
payload does not have. -/
def missingValue : JsonMetric := JsonMetric.mk plainDesc "$.zz" "" [] .jq

/-- The contents of a string after the jq backend has pulled off its quotes: what
`Unquote` makes of it, the string itself when `Unquote` rejects it. -/
def dropQuotes (L : Libraries) (str : String) : String :=
  match L.Unquote str with
  | .ok l => l
  | .error _ => str

/-- The raw JSON text of a string written without escapes: its contents between two
double quotes. -/
def plainQuoted (s : String) : String := "\"" ++ s ++ "\""

/-! ## cmd/main.go: computeTarget and getLastScrapeTime -/

/-- A `time.Time` as the instant it denotes: the seconds since the Unix epoch and the
nanoseconds within the second. -/
structure Time where
  sec : Int
  nsec : Nat
  deriving DecidableEq

/-- The method `Time.Unix`: the seconds since the epoch. -/
def Time.Unix (t : Time) : Int := t.sec

/-- The value of an `int64` expression whose mathematical value is `x`. -/
def int64 (x : Int) : Int := (x + 2 ^ 63) % 2 ^ 64 - 2 ^ 63

/-- The function `strconv.FormatInt(x, 10)`. -/
def FormatInt (x : Int) : String := toString x

/-- One element of `re.FindAllStringSubmatch(target, -1)`: the text of the match and of the
three groups of `re`, that is `match[0]`, `match[1]` (`from` or `to`), `match[2]` (`date` or
empty) and `match[3]` (the format). -/
structure Submatch where
  whole : String
  kind : String
  date : String
  format : String
  deriving DecidableEq

/-- The functions of the standard library and of `GoDateFormat` that `computeTarget` calls. -/
structure TemplateLibraries where
  /-- `re.FindAllStringSubmatch(target, -1)` for the regular expression `re` of the
  package. -/
  FindAllStringSubmatch : String → List Submatch
  /-- `strings.Replace(s, old, new, -1)`. -/
  Replace : String → String → String → String
  /-- `t.Format(layout)`. -/
  Format : Time → String → String
  /-- `t.Add(d)`, for a duration `d` in nanoseconds. -/
  Add : Time → Int → Time
  /-- `GoDateFormat.ConvertFormat(format)`. -/
  ConvertFormat : String → String

/-- The constant `time.RFC3339`. -/
def RFC3339 : String := "2006-01-02T15:04:05Z07:00"

/-- The variable `defaultFormat`. -/
def defaultFormat : String := RFC3339

/-- The map `scrapeTimestamps`. -/
abbrev ScrapeTimestamps := String → Option Time

/-- The function `getLastScrapeTime`, for the value of `scrapeDurationSeconds` (a
`time.Duration`) and the map `scrapeTimestamps`. -/
def getLastScrapeTime (E : TemplateLibraries) (scrapeDurationSeconds : Int)
    (scrapeTimestamps : ScrapeTimestamps) (target : String) (now : Time) : Time :=
  match scrapeTimestamps target with
  | none =>
    if scrapeDurationSeconds = 0 then
      Time.mk 0 0
    else
      E.Add now (int64 (int64 (-scrapeDurationSeconds) * 1000000000))
  | some lastScrapeTime => lastScrapeTime

/-- The body of the loop of `computeTarget` for one match: the string `replace`. -/
def replacement (E : TemplateLibraries) (scrapeDurationSeconds : Int)
    (scrapeTimestamps : ScrapeTimestamps) (target : String) (now : Time) (m : Submatch) :
    String :=
  let replaceTime :=
    if m.kind = "from" then
      getLastScrapeTime E scrapeDurationSeconds scrapeTimestamps target now
    else now
  if m.date ≠ "" then
    if m.format = "" then E.Format replaceTime defaultFormat
    else if m.format = "iso" then E.Format replaceTime RFC3339
    else if m.format = "seconds" then FormatInt replaceTime.Unix
    else E.Format replaceTime (E.ConvertFormat m.format)
  else
    FormatInt (int64 (replaceTime.Unix * 1000))

/-- The function `computeTarget`, for the instant `now` that `time.Now()` returns: the
new target and the map `scrapeTimestamps` after the call. -/
def computeTarget (E : TemplateLibraries) (scrapeDurationSeconds : Int)
    (scrapeTimestamps : ScrapeTimestamps) (now : Time) (target : String) :
    String × ScrapeTimestamps :=
  ((E.FindAllStringSubmatch target).foldl
      (fun newTarget m => E.Replace newTarget m.whole
        (replacement E scrapeDurationSeconds scrapeTimestamps target now m))
      target,
    fun key => if key = target then some now else scrapeTimestamps key)

/-- The millisecond Unix timestamp of an instant, as the specification names it: the
milliseconds since the epoch (`Time.UnixMilli`). -/
def millisecondTimestamp (t : Time) : Int := t.sec * 1000 + t.nsec / 1000000

/-! ## The standard library on the targets of the runs

The regular expression `re`, read by hand as a matcher, and `strings.Replace`. Dates are
not rendered here: `Format` gives the layout back, and no run below formats a date. -/

namespace Template

/-- The closing brace. -/
def closing : Char := Char.ofNat 125

/-- The line feed, which `.` does not match. -/
def lineFeed : Char := Char.ofNat 10

/-- The text after a prefix, `none` when the text does not start with the prefix. -/
def after : List Char → List Char → Option (List Char)
  | [], cs => some cs
  | _ :: _, [] => none
  | p :: ps, c :: cs => if p = c then after ps cs else none

/-- The lazy `(.*?)` followed by the closing brace: the text before the first closing
brace and the text after it, `none` when a line feed or the end comes first. -/
def upToClosing : List Char → Option (List Char × List Char)
  | [] => none
  | c :: cs =>
    if c = closing then some ([], cs)
    else if c = lineFeed then none
    else
      match upToClosing cs with
      | some (format, rest) => some (c :: format, rest)
      | none => none

/-- What follows the group `(from|to)`: the optional group with `date`, an optional colon
and the format, then the closing brace. The groups `match[2]` and `match[3]` and the text
after the match. -/
def tail (rest : List Char) : Option (String × String × List Char) :=
  match after ":date".data rest with
  | some rest2 =>
    match upToClosing ((after ":".data rest2).getD rest2) with
    | some (format, rest3) => some ("date", String.mk format, rest3)
    | none => none
  | none =>
    match rest with
    | c :: rest3 => if c = closing then some ("", "", rest3) else none
    | [] => none

/-- A match of `re` at the start of the text: the match and the text after it. -/
def matchAt (cs : List Char) : Option (Submatch × List Char) :=
  let found (kind : String) (rest : List Char) : Option (Submatch × List Char) :=
    match tail rest with
    | some (date, format, rest3) =>
      some (Submatch.mk (String.mk (cs.take (cs.length - rest3.length))) kind date format,
        rest3)
    | none => none
  match after "$\x7b__from".data cs with
  | some rest => found "from" rest
  | none =>
    match after "$\x7b__to".data cs with
    | some rest => found "to" rest
    | none => none

/-- The matches of `re` in the text, from left to right, without overlap; the fuel bounds
the number of positions tried. -/
def findAll : Nat → List Char → List Submatch
  | 0, _ => []
  | _ + 1, [] => []
  | fuel + 1, c :: cs =>
    match matchAt (c :: cs) with
    | some (m, rest) => m :: findAll fuel rest
    | none => findAll fuel cs

/-- The function `re.FindAllStringSubmatch(target, -1)`. -/
def FindAllStringSubmatch (target : String) : List Submatch :=
  findAll (target.data.length + 1) target.data

/-- The text with every occurrence of the non-empty `old` replaced by `new`, from left to
right, without overlap; the fuel bounds the number of positions tried. -/
def replaceAll (old new : List Char) : Nat → List Char → List Char
  | 0, cs => cs
  | _ + 1, [] => []
  | fuel + 1, c :: cs =>
    match after old (c :: cs) with
    | some rest => new ++ replaceAll old new fuel rest
    | none => c :: replaceAll old new fuel cs

/-- The function `strings.Replace(s, old, new, -1)`; for an empty `old` it puts `new`
before every character and at the end. -/
def Replace (s old new : String) : String :=
  if old.data = [] then String.mk (new.data ++ s.data.flatMap (fun c => c :: new.data))
  else String.mk (replaceAll old.data new.data (s.data.length + 1) s.data)

/-- The duration added to an instant, in nanoseconds. -/
def Add (t : Time) (d : Int) : Time :=
  Time.mk ((t.sec * 1000000000 + t.nsec + d) / 1000000000)
    ((t.sec * 1000000000 + t.nsec + d) % 1000000000).toNat

end Template

/-- The standard library on the targets of the runs. -/
def templating : TemplateLibraries where
  FindAllStringSubmatch := Template.FindAllStringSubmatch
  Replace := Template.Replace
  Format := fun _ layout => layout
  Add := Template.Add
  ConvertFormat := fun format => format

/-- The map `scrapeTimestamps` at the start of the process: no entry. -/
def noTimestamps : ScrapeTimestamps := fun _ => none

/-- A target with a bare `from` token and a bare `to` token. -/
def exampleTarget : String := "http://host/api?from=$\x7b__from\x7d&to=$\x7b__to\x7d"

/-- A target with the three forms of a `from` token with a format. -/
def formatTarget : String :=
  "a=$\x7b__from:date\x7d&b=$\x7b__from:date:iso\x7d&c=$\x7b__to:date:YYYY\x7d"

/-- The match of `re` for a bare `from` token. -/
def bareFrom : Submatch := Submatch.mk "$\x7b__from\x7d" "from" "" ""

/-- An object-mode definition of the jq backend over the array under `items`, with the
value path `$.v` and, for its one label `id`, the label path `$.zz` that no element has. -/
def missingLabelMetric : JsonMetric := JsonMetric.mk idDesc "$.items" "$.v" ["$.zz"] .jq

/-- An object-mode definition of the JSON-path backend over the elements of the array under
`items`, with the value path `$.v` and the label path `$.id`. -/
def itemsByJsonPath : JsonMetric := JsonMetric.mk idDesc "$.items[*]" "$.v" ["$.id"] .jsonPath

/-! ## Theorems -/

/-- The loop of the collector over a nil iterator panics at its first call. -/
theorem objectLoop_nil (L : Libraries) (m : JsonMetric) (fuel : Nat) (sent : List Metric) :
    objectLoop L m (fuel + 1) none sent = Run.mk sent (.panicked nilDereference) := rfl

/-- For any libraries: an object-mode definition whose `ExtractObject` returns a nil
iterator, with or without an error, makes `Collect` panic, whatever definitions follow. -/
theorem collectLoop_nil_iterator (L : Libraries) (fuel : Nat) (data : String) (m : JsonMetric)
    (rest : List JsonMetric) (sent : List Metric) (err : Option GoError)
    (hobject : m.ValueExtractorPath ≠ "")
    (hnil : Extractor.ExtractObject L m.Extractor data m.KeyExtractorPath = .ret (none, err)) :
    collectLoop L (fuel + 1) data (m :: rest) sent = Run.mk sent (.panicked nilDereference) := by
  simp only [collectLoop, if_neg hobject, hnil, objectLoop_nil]

/-- For any libraries: the closure of the JSON-path backend panics when `Next` gives a nil
result, since it reads `results.Value` before it looks at `ok`. -/
theorem ObjectIterator.call_jsonPath_nil (L : Libraries) (eval : L.Eval)
    (hnil : (L.evalNext eval).1.1 = none) :
    ObjectIterator.call L (.jsonPath eval) = .panicked nilDereference := by
  rcases hx : L.evalNext eval with ⟨⟨r, ok⟩, e2⟩
  rw [hx] at hnil
  simp only at hnil
  subst hnil
  simp only [ObjectIterator.call, hx, nilDereference]

/-- For any libraries: `JqExtractor.ExtractObject` returns the array closure at index 0 for
a path that resolves to an array, and a nil iterator with an error for a path that resolves
to a value that is neither an array nor an object. -/
theorem JqExtractor.ExtractObject_by_type (L : Libraries) (json path : String) (input v : GoVal)
    (hjson : L.Unmarshal json = .ok input) (hpath : 1 ≤ len path)
    (hv : JqExtractor.extract L input (sliceFrom1 path) = (v, none)) :
    (∀ vv, v = .slice vv →
        JqExtractor.ExtractObject L json path = .ret (some (.jqArray vv 0), none)) ∧
      ((∀ vv, v ≠ .slice vv) → (∀ kvs, v ≠ .map kvs) →
        JqExtractor.ExtractObject L json path
          = .ret (none, some (JqExtractor.objectError path))) := by
  have hnot : ¬ len path < 1 := by omega
  constructor
  · intro vv h
    subst h
    simp only [JqExtractor.ExtractObject, hjson, if_neg hnot, hv]
  · intro h1 h2
    cases v with
    | slice vv => exact absurd rfl (h1 vv)
    | map kvs => exact absurd rfl (h2 kvs)
    | nil => simp only [JqExtractor.ExtractObject, hjson, if_neg hnot, hv]
    | float64 x => simp only [JqExtractor.ExtractObject, hjson, if_neg hnot, hv]
    | string s => simp only [JqExtractor.ExtractObject, hjson, if_neg hnot, hv]
    | bool b => simp only [JqExtractor.ExtractObject, hjson, if_neg hnot, hv]
    | other t => simp only [JqExtractor.ExtractObject, hjson, if_neg hnot, hv]

/-- C1, on the code: an object-mode definition whose `ExtractObject` fails is not skipped.
With the jq backend and the payload with the number 5 under `n`, the object path `$.n`
makes `ExtractObject` return a nil iterator and an error; `Collect` logs the error, calls
the nil iterator and panics, so nothing is sent for the later value-mode definition, which
alone gives the sample 5. -/
theorem collect_calls_nil_iterator :
    Extractor.ExtractObject fragment .jq (Fragment.text Fragment.numberDoc) "$.n"
        = .ret (none, some (JqExtractor.objectError "$.n")) ∧
      (∀ fuel, JsonMetricCollector.Collect fragment (fuel + 1)
          (JsonMetricCollector.mk [numberAsObject, numberValue] (Fragment.text Fragment.numberDoc))
        = Run.mk [] (.panicked nilDereference)) ∧
      (∀ fuel, JsonMetricCollector.Collect fragment fuel
          (JsonMetricCollector.mk [numberValue] (Fragment.text Fragment.numberDoc))
        = Run.mk [Metric.mk plainDesc (.val 5) []] .returned) := by
  refine ⟨rfl, fun fuel => rfl, fun fuel => rfl⟩

/-- C3, on the code: the iterator of the jq backend for a single object never yields it.
Every call of the object closure returns the marshalled object with `exists = false`;
on the payload of `itemA` with the object path `$.`, `ExtractObject` returns that closure
and `Collect` sends nothing, although the value path and the label path resolve in the
object. -/
theorem single_object_never_yielded :
    (∀ (L : Libraries) (vm : String),
        ObjectIterator.call L (.jqObject vm) = .ret ((vm, false, none), .jqObject vm)) ∧
      JqExtractor.ExtractObject fragment (Fragment.text Fragment.itemA) "$."
        = .ret (some (.jqObject (Fragment.text Fragment.itemA)), none) ∧
      JqExtractor.ExtractValue fragment (Fragment.text Fragment.itemA) "$.v"
        = (.val 1, none) ∧
      JqExtractor.ExtractLabels fragment (Fragment.text Fragment.itemA) ["$.id"]
        = .ret (["a"], none) ∧
      (∀ fuel, JsonMetricCollector.Collect fragment (fuel + 1)
          (JsonMetricCollector.mk [wholeObject] (Fragment.text Fragment.itemA))
        = Run.mk [] .returned) := by
  refine ⟨fun L vm => rfl, rfl, by decide, by decide, fun fuel => rfl⟩

/-- Once `Next` of an evaluator of the fragment has reported `ok = false`, it reports the
same on the evaluator it leaves. -/
theorem Fragment.evalNext_stable (eval e2 : Fragment.Eval) (r : Option Result)
    (h : Fragment.evalNext eval = ((r, false), e2)) :
    Fragment.evalNext e2 = ((r, false), e2) := by
  unfold Fragment.evalNext at h
  split at h
  · next hp =>
    have h1 : r = none := by injection h with h3 _; injection h3 with h4 _; exact h4.symm
    have h2 : e2 = eval := by injection h with _ h3; exact h3.symm
    subst h1 h2
    unfold Fragment.evalNext
    rw [hp]
  · injection h with h3 _; injection h3 with _ h4; cases h4

/-- The array closure of the jq backend, unfolded. -/
theorem ObjectIterator.call_jqArray (L : Libraries) (vv : List GoVal) (idx : Nat) :
    ObjectIterator.call L (.jqArray vv idx) =
      if idx = vv.length then .ret (("", false, none), .jqArray vv idx)
      else
        match vv[idx]? with
        | none => .panicked "index out of range"
        | some x =>
          match L.Marshal x with
          | .error err => .ret (("", false, some err), .jqArray vv idx)
          | .ok vm => .ret ((vm, true, none), .jqArray vv (idx + 1)) := rfl

/-- The closure of the JSON-path backend, unfolded. -/
theorem ObjectIterator.call_jsonPath (L : Libraries) (eval : L.Eval) :
    ObjectIterator.call L (.jsonPath eval) =
      match L.evalNext eval with
      | ((none, _), _) => .panicked "invalid memory address or nil pointer dereference"
      | ((some results, ok), eval2) => .ret ((results.Value, ok, none), .jsonPath eval2) := rfl

/-- A call of an iterator that has just returned `exists = false` returns the same triple
and leaves the iterator as it is. -/
theorem ObjectIterator.call_fixed (L : Libraries)
    (hstable : ∀ (eval e2 : L.Eval) (r : Option Result),
      L.evalNext eval = ((r, false), e2) → L.evalNext e2 = ((r, false), e2))
    (it it2 : ObjectIterator L) (json : String) (err : Option GoError)
    (h : ObjectIterator.call L it = .ret ((json, false, err), it2)) :
    ObjectIterator.call L it2 = .ret ((json, false, err), it2) := by
  cases it with
  | jqArray vv idx =>
    rw [ObjectIterator.call_jqArray] at h
    by_cases hidx : idx = vv.length
    · simp only [if_pos hidx, Go.ret.injEq, Prod.mk.injEq] at h
      obtain ⟨⟨h1, -, h3⟩, h4⟩ := h
      subst h1 h3 h4
      rw [ObjectIterator.call_jqArray, if_pos hidx]
    · cases hx : vv[idx]? with
      | none => simp [if_neg hidx, hx] at h
      | some x =>
        cases hm : L.Marshal x with
        | error e =>
          simp only [if_neg hidx, hx, hm, Go.ret.injEq, Prod.mk.injEq] at h
          obtain ⟨⟨h1, -, h3⟩, h4⟩ := h
          subst h1 h3 h4
          simp only [ObjectIterator.call_jqArray, if_neg hidx, hx, hm]
        | ok vm =>
          simp [if_neg hidx, hx, hm] at h
  | jqObject vm =>
    have h1 : ObjectIterator.call L (.jqObject vm) = .ret ((vm, false, none), .jqObject vm) :=
      rfl
    simp only [h1, Go.ret.injEq, Prod.mk.injEq] at h
    obtain ⟨⟨h2, -, h3⟩, h4⟩ := h
    subst h2 h3 h4
    exact h1
  | jsonPath eval =>
    rw [ObjectIterator.call_jsonPath] at h
    rcases hn : L.evalNext eval with ⟨⟨r, ok⟩, e2⟩
    rw [hn] at h
    cases r with
    | none => cases h
    | some results =>
      simp only [Go.ret.injEq, Prod.mk.injEq] at h
      obtain ⟨⟨h1, h2, h3⟩, h4⟩ := h
      subst h1 h2 h3 h4
      have := hstable eval e2 (some results) hn
      rw [ObjectIterator.call_jsonPath, this]

/-- C9: once a call of an iterator has returned `exists = false`, every later call
returns `exists = false` again, with the same fragment and the same error (none when the
first had none), and none panics. For the array closure and the object closure of the jq
backend this holds as it is; for the closure of the JSON-path backend it holds when an
evaluator whose `Next` reported `ok = false` reports the same on every later `Next`. -/
theorem exhaustion_is_idempotent (L : Libraries)
    (hstable : ∀ (eval e2 : L.Eval) (r : Option Result),
      L.evalNext eval = ((r, false), e2) → L.evalNext e2 = ((r, false), e2))
    (it it2 : ObjectIterator L) (json : String) (err : Option GoError)
    (h : ObjectIterator.call L it = .ret ((json, false, err), it2)) (n : Nat) :
    ObjectIterator.later L n it2 = .ret ((json, false, err), it2) := by
  have hfix := ObjectIterator.call_fixed L hstable it it2 json err h
  induction n with
  | zero => exact hfix
  | succ n ih =>
    unfold ObjectIterator.later
    rw [hfix]
    exact ih

/-- C9 at a concrete input: the array closure of the jq backend over the one-element array
`[itemA]`, after its element has been yielded, answers `exists = false` at the call that
finds the array exhausted and at the fourth call after it. -/
theorem exhaustion_is_idempotent_witness :
    ObjectIterator.call fragment (.jqArray [Fragment.itemA] 1)
        = .ret (("", false, none), .jqArray [Fragment.itemA] 1) ∧
      ObjectIterator.later fragment 3 (.jqArray [Fragment.itemA] 1)
        = .ret (("", false, none), .jqArray [Fragment.itemA] 1) :=
  ⟨rfl, exhaustion_is_idempotent fragment Fragment.evalNext_stable
    (.jqArray [Fragment.itemA] 1) (.jqArray [Fragment.itemA] 1) "" none rfl 3⟩

/-- C10: a reload whose load fails returns the error of the load and leaves the config of
the store as it was; a reload whose load succeeds returns no error and the store then
holds the loaded config; `GetConfig` after `SetConfig c` returns `c`. -/
theorem reload_keeps_or_replaces {Config : Type}
    (LoadConfig : String → Config × Option GoError) (sc : SafeConfig Config)
    (configFile : String) :
    (∀ c err, LoadConfig configFile = (c, some err) →
        (sc.reloadConfig LoadConfig configFile).2 = some err ∧
          (sc.reloadConfig LoadConfig configFile).1.GetConfig = sc.GetConfig) ∧
      (∀ c, LoadConfig configFile = (c, none) →
        (sc.reloadConfig LoadConfig configFile).2 = none ∧
          (sc.reloadConfig LoadConfig configFile).1.GetConfig = c) ∧
      (∀ c, (sc.SetConfig c).GetConfig = c) := by
  refine ⟨?_, ?_, ?_⟩
  · intro c err h
    simp [SafeConfig.reloadConfig, h]
  · intro c h
    simp [SafeConfig.reloadConfig, h, SafeConfig.SetConfig, SafeConfig.GetConfig]
  · intro c
    rfl

/-- C10 at a concrete input: from the store holding `old`, the reload of `bad.yml` returns
the error and `GetConfig` still gives `old`; the reload of `good.yml` returns no error and
`GetConfig` gives `new`. -/
theorem reload_keeps_or_replaces_witness :
    (((SafeConfig.mk "old").reloadConfig loadExample "bad.yml").2
          = some "yaml: unmarshal errors" ∧
        ((SafeConfig.mk "old").reloadConfig loadExample "bad.yml").1.GetConfig = "old") ∧
      (((SafeConfig.mk "old").reloadConfig loadExample "good.yml").2 = none ∧
        ((SafeConfig.mk "old").reloadConfig loadExample "good.yml").1.GetConfig = "new") :=
  ⟨(reload_keeps_or_replaces loadExample (SafeConfig.mk "old") "bad.yml").1 ""
      "yaml: unmarshal errors" (by decide),
    (reload_keeps_or_replaces loadExample (SafeConfig.mk "old") "good.yml").2.1 "new"
      (by decide)⟩

/-- The loop over the iterator, unfolded at a non-nil iterator and positive fuel. -/
theorem objectLoop_succ (L : Libraries) (m : JsonMetric) (fuel : Nat)
    (iterator : ObjectIterator L) (sent : List Metric) :
    objectLoop L m (fuel + 1) (some iterator) sent =
      match ObjectIterator.call L iterator with
      | .panicked msg => Run.mk sent (.panicked msg)
      | .ret ((_, _, some _), iterator2) => objectLoop L m fuel (some iterator2) sent
      | .ret ((result, ok, none), iterator2) =>
        if ok then
          match Extractor.ExtractValue L m.Extractor result m.ValueExtractorPath with
          | .panicked msg => Run.mk sent (.panicked msg)
          | .ret (_, some _) => objectLoop L m fuel (some iterator2) sent
          | .ret (floatValue, none) =>
            match Extractor.ExtractLabels L m.Extractor result m.LabelsExtractorPaths with
            | .panicked msg => Run.mk sent (.panicked msg)
            | .ret (labels, _) =>
              match MustNewConstMetric L m.Desc floatValue labels with
              | .panicked msg => Run.mk sent (.panicked msg)
              | .ret metric => objectLoop L m fuel (some iterator2) (sent ++ [metric])
        else
          Run.mk sent .returned := rfl

/-- The loop of the collector over the array closure of the jq backend, from the index
`idx`: with fuel for every remaining element and one more call, it sends the samples of
the remaining elements in order and ends normally. -/
theorem objectLoop_jqArray (L : Libraries) (m : JsonMetric) (hjq : m.Extractor = .jq)
    (vv : List GoVal) :
    ∀ (samples : List Metric) (idx : Nat) (sent : List Metric) (fuel : Nat),
      idx ≤ vv.length →
      List.Forall₂ (IsSampleOf L m) (vv.drop idx) samples →
      samples.length < fuel →
      objectLoop L m fuel (some (.jqArray vv idx)) sent = Run.mk (sent ++ samples) .returned := by
  intro samples
  induction samples with
  | nil =>
    intro idx sent fuel hle hall hfuel
    obtain ⟨fuel, rfl⟩ : ∃ f, fuel = f + 1 := ⟨fuel - 1, by simp at hfuel; omega⟩
    have hdrop : vv.drop idx = [] := by
      cases hd : vv.drop idx with
      | nil => rfl
      | cons a l => rw [hd] at hall; cases hall
    have hlen : vv.length ≤ idx := List.drop_eq_nil_iff.mp hdrop
    have hidx : idx = vv.length := Nat.le_antisymm hle hlen
    rw [objectLoop_succ, ObjectIterator.call_jqArray]
    simp [if_pos hidx]
  | cons s samples ih =>
    intro idx sent fuel hle hall hfuel
    obtain ⟨fuel, rfl⟩ : ∃ f, fuel = f + 1 := ⟨fuel - 1, by simp at hfuel; omega⟩
    have hlt : idx < vv.length := by
      rcases Nat.lt_or_ge idx vv.length with h | h
      · exact h
      · rw [List.drop_eq_nil_iff.mpr h] at hall; cases hall
    rw [List.drop_eq_getElem_cons hlt] at hall
    obtain ⟨hs, hrest⟩ := List.forall₂_cons.mp hall
    obtain ⟨b, e, hm, hv, hl, hc, hd⟩ := hs
    have hget : vv[idx]? = some vv[idx] := List.getElem?_eq_getElem hlt
    have hmetric : Metric.mk m.Desc s.value s.labelValues = s := by
      cases s; simp only at hd; subst hd; rfl
    rw [objectLoop_succ, ObjectIterator.call_jqArray, if_neg (Nat.ne_of_lt hlt)]
    simp only [hget, hm, if_true, hjq, Extractor.ExtractValue, Extractor.ExtractLabels, hv, hl,
      MustNewConstMetric, hc, hmetric]
    rw [ih (idx + 1) (sent ++ [s]) fuel hlt hrest (by simp at hfuel; omega)]
    simp

/-- C2, amended: with the jq backend, when the object path of an object-mode definition `m`
resolves to the array `vv` and every element of `vv` has its sample (the element marshals
to a fragment, `ExtractValue` succeeds on the fragment, `ExtractLabels` returns on it and
the metric constructor accepts the labels), `Collect` sends for `m` exactly these samples,
one for each element, in array order, each with the value and the labels extracted from
its own element, and then goes on with the definitions after `m`. The fuel covers one call
of the iterator for each element and the call that finds the array exhausted. -/
theorem collect_array_in_order (L : Libraries) (fuel : Nat) (data : String) (m : JsonMetric)
    (rest : List JsonMetric) (input : GoVal) (vv : List GoVal) (samples : List Metric)
    (hobject : m.ValueExtractorPath ≠ "") (hjq : m.Extractor = .jq)
    (hjson : L.Unmarshal data = .ok input) (hpath : 1 ≤ len m.KeyExtractorPath)
    (harray : JqExtractor.extract L input (sliceFrom1 m.KeyExtractorPath) = (.slice vv, none))
    (hsamples : List.Forall₂ (IsSampleOf L m) vv samples) (hfuel : vv.length < fuel) :
    JsonMetricCollector.Collect L fuel (JsonMetricCollector.mk (m :: rest) data)
        = collectLoop L fuel data rest samples ∧
      samples.length = vv.length := by
  have hk : samples.length = vv.length := (List.Forall₂.length_eq hsamples).symm
  refine ⟨?_, hk⟩
  have hloop := objectLoop_jqArray L m hjq vv samples 0 [] fuel (Nat.zero_le _)
    (by simpa using hsamples) (by omega)
  have hnot : ¬ len m.KeyExtractorPath < 1 := by omega
  simp only [JsonMetricCollector.Collect, collectLoop, if_neg hobject, hjq,
    Extractor.ExtractObject, JqExtractor.ExtractObject, hjson, if_neg hnot, harray]
  simp only [hloop, List.nil_append]

/-- C2, amended, at a concrete input: the payload with the array of `itemA` and `itemB` under `items`,
the object path `$.items`, the value path `$.v` and the label path `$.id` give the two
samples `1` with label `a` and `2` with label `b`, in this order. -/
theorem collect_array_in_order_witness :
    JsonMetricCollector.Collect fragment 3
        (JsonMetricCollector.mk [itemsMetric] (Fragment.text Fragment.itemsDoc))
        = Run.mk [Metric.mk idDesc (.val 1) ["a"], Metric.mk idDesc (.val 2) ["b"]] .returned ∧
      [Metric.mk idDesc (.val 1) ["a"], Metric.mk idDesc (.val 2) ["b"]].length
        = [Fragment.itemA, Fragment.itemB].length :=
  collect_array_in_order fragment 3 (Fragment.text Fragment.itemsDoc) itemsMetric []
    Fragment.itemsDoc [Fragment.itemA, Fragment.itemB]
    [Metric.mk idDesc (.val 1) ["a"], Metric.mk idDesc (.val 2) ["b"]]
    (by decide) rfl rfl (by decide) rfl
    (List.Forall₂.cons
      ⟨Fragment.text Fragment.itemA, none, rfl, by decide, by decide, rfl, rfl⟩
      (List.Forall₂.cons
        ⟨Fragment.text Fragment.itemB, none, rfl, by decide, by decide, rfl, rfl⟩
        List.Forall₂.nil))
    (by decide)

/-- The inner loop of the jq backend appends the strings of the array, when all its
entries are strings. -/
theorem JqExtractor.appendEntries_eq (vs : List GoVal) :
    ∀ labels : List String,
      JqExtractor.appendEntries vs labels = (stringEntries vs).map (fun ss => labels ++ ss) := by
  induction vs with
  | nil => intro labels; simp [JqExtractor.appendEntries, stringEntries]
  | cons v vs ih =>
    intro labels
    cases v <;> simp [JqExtractor.appendEntries, stringEntries, ih, Option.map_map,
      Function.comp_def]

/-- What the loop of `JqExtractor.ExtractLabels` returns when it returns without error:
the labels gathered so far, followed by the label values of each path in path order. -/
theorem JqExtractor.labelsLoop_ok (L : Libraries) (input : GoVal) (paths : List String) :
    ∀ (acc labels : List String),
      JqExtractor.labelsLoop L input paths acc = .ret (labels, none) →
      ∃ parts : List (List String),
        List.Forall₂ (fun path part => ∃ v,
          JqExtractor.extract L input (sliceFrom1 path) = (v, none) ∧
            labelValuesOf v = some part) paths parts ∧
        labels = acc ++ parts.flatten := by
  induction paths with
  | nil =>
    intro acc labels h
    simp only [JqExtractor.labelsLoop, Go.ret.injEq, Prod.mk.injEq, and_true] at h
    exact ⟨[], List.Forall₂.nil, by simp [h]⟩
  | cons path rest ih =>
    intro acc labels h
    simp only [JqExtractor.labelsLoop] at h
    split at h
    · cases h
    · rcases hx : JqExtractor.extract L input (sliceFrom1 path) with ⟨vv, e⟩
      rw [hx] at h
      cases e with
      | some err => simp at h
      | none =>
        cases vv with
        | slice vi =>
          simp only [JqExtractor.appendEntries_eq] at h
          cases hs : stringEntries vi with
          | none => simp [hs] at h
          | some ss =>
            simp only [hs, Option.map_some'] at h
            obtain ⟨parts, hparts, hl⟩ := ih _ _ h
            exact ⟨ss :: parts, List.Forall₂.cons ⟨_, hx, by simpa [labelValuesOf] using hs⟩ hparts,
              by simp [hl]⟩
        | string vi =>
          simp only at h
          obtain ⟨parts, hparts, hl⟩ := ih _ _ h
          exact ⟨[vi] :: parts, List.Forall₂.cons ⟨_, hx, rfl⟩ hparts, by simp [hl]⟩
        | nil => simp at h
        | float64 x => simp at h
        | bool b => simp at h
        | map kvs => simp at h
        | other t => simp at h

/-- An array has no list of strings exactly when one of its entries is not a string. -/
theorem stringEntries_eq_none_iff (vs : List GoVal) :
    stringEntries vs = none ↔ ∃ entry ∈ vs, ∀ s, entry ≠ .string s := by
  induction vs with
  | nil => simp [stringEntries]
  | cons v vs ih =>
    cases v <;> simp [stringEntries, ih]

/-- A value has no label values exactly when it is no label. -/
theorem labelValuesOf_eq_none_iff (v : GoVal) : labelValuesOf v = none ↔ NotALabel v := by
  cases v <;> simp [labelValuesOf, NotALabel, stringEntries_eq_none_iff]

/-- The loop of `JqExtractor.ExtractLabels` over non-empty paths returns an error and no
label as soon as one of the paths resolves to a value without label values. -/
theorem JqExtractor.labelsLoop_error (L : Libraries) (input : GoVal) (paths : List String)
    (hne : ∀ path ∈ paths, 1 ≤ len path)
    (hbad : ∃ path ∈ paths, ∃ v,
      JqExtractor.extract L input (sliceFrom1 path) = (v, none) ∧ labelValuesOf v = none) :
    ∀ acc : List String, ∃ err, JqExtractor.labelsLoop L input paths acc = .ret ([], some err) := by
  induction paths with
  | nil => obtain ⟨path, hmem, _⟩ := hbad; cases hmem
  | cons path rest ih =>
    intro acc
    have hlen : ¬ len path < 1 := by
      have := hne path (List.mem_cons_self _ _); omega
    have hne2 : ∀ p ∈ rest, 1 ≤ len p := fun p hp => hne p (List.mem_cons_of_mem _ hp)
    simp only [JqExtractor.labelsLoop, if_neg hlen]
    rcases hx : JqExtractor.extract L input (sliceFrom1 path) with ⟨vv, e⟩
    cases e with
    | some err => exact ⟨err, rfl⟩
    | none =>
      have hrest : labelValuesOf vv ≠ none → ∃ p ∈ rest, ∃ v,
          JqExtractor.extract L input (sliceFrom1 p) = (v, none) ∧ labelValuesOf v = none := by
        intro hgood
        obtain ⟨p, hmem, v, hv, hnone⟩ := hbad
        rcases List.mem_cons.mp hmem with rfl | hmem
        · rw [hx] at hv
          simp only [Prod.mk.injEq, and_true] at hv
          subst hv
          exact absurd hnone hgood
        · exact ⟨p, hmem, v, hv, hnone⟩
      cases vv with
      | slice vi =>
        simp only [JqExtractor.appendEntries_eq]
        cases hs : stringEntries vi with
        | none => exact ⟨_, rfl⟩
        | some ss =>
          simp only [Option.map_some']
          exact ih hne2 (hrest (by simp [labelValuesOf, hs])) _
      | string vi => exact ih hne2 (hrest (by simp [labelValuesOf])) _
      | nil => exact ⟨_, rfl⟩
      | float64 x => exact ⟨_, rfl⟩
      | bool b => exact ⟨_, rfl⟩
      | map kvs => exact ⟨_, rfl⟩
      | other t => exact ⟨_, rfl⟩

/-- The method `JsonPathExtractor.compilePath` returns on a non-empty path. -/
theorem JsonPathExtractor.compilePath_returns (L : Libraries) (path : String)
    (hne : 1 ≤ len path) : ∃ r, JsonPathExtractor.compilePath L path = .ret r := by
  have hlen : ¬ len path < 1 := by omega
  simp only [JsonPathExtractor.compilePath, if_neg hlen]
  split <;> exact ⟨_, rfl⟩

/-- The body of the loop of `JsonPathExtractor.ExtractLabels` returns on a non-empty path. -/
theorem JsonPathExtractor.labelOf_returns (L : Libraries) (json : String) (path : String)
    (hne : 1 ≤ len path) : ∃ o, JsonPathExtractor.labelOf L json path = .ret o := by
  obtain ⟨r, hr⟩ := JsonPathExtractor.compilePath_returns L path hne
  simp only [JsonPathExtractor.labelOf, hr]
  cases r with
  | error err => exact ⟨_, rfl⟩
  | ok p =>
    simp only
    cases L.EvalPathsInBytes json p with
    | error err => exact ⟨_, rfl⟩
    | ok eval =>
      simp only
      rcases L.evalNext eval with ⟨⟨r, ok⟩, e2⟩
      cases r with
      | none => exact ⟨_, rfl⟩
      | some result =>
        cases ok with
        | false => exact ⟨_, rfl⟩
        | true =>
          simp only
          cases L.Unquote result.Value <;> exact ⟨_, rfl⟩

/-- The loop of `JsonPathExtractor.ExtractLabels`, from the slots `done` already passed and
an empty slot for each path still to come, fills the slot of each path. -/
theorem JsonPathExtractor.labelsLoop_eq (L : Libraries) (json : String) (paths : List String)
    (hret : ∀ path ∈ paths, ∃ o, JsonPathExtractor.labelOf L json path = .ret o) :
    ∀ done : List String,
      JsonPathExtractor.labelsLoop L json paths done.length
          (done ++ List.replicate paths.length "")
        = .ret (done ++ paths.map (JsonPathExtractor.slot L json)) := by
  induction paths with
  | nil => intro done; simp [JsonPathExtractor.labelsLoop]
  | cons path rest ih =>
    intro done
    obtain ⟨o, ho⟩ := hret path (List.mem_cons_self _ _)
    have hrest : ∀ p ∈ rest, ∃ o, JsonPathExtractor.labelOf L json p = .ret o :=
      fun p hp => hret p (List.mem_cons_of_mem _ hp)
    simp only [JsonPathExtractor.labelsLoop, ho]
    cases o with
    | none =>
      have h := ih hrest (done ++ [""])
      simp only [List.length_append, List.length_singleton, List.append_assoc,
        List.singleton_append] at h
      simp only [List.length_cons, List.replicate_succ, List.map_cons, JsonPathExtractor.slot,
        ho]
      exact h
    | some l =>
      have h := ih hrest (done ++ [l])
      simp only [List.length_append, List.length_singleton, List.append_assoc,
        List.singleton_append] at h
      simp only [List.length_cons, List.replicate_succ, List.map_cons, JsonPathExtractor.slot,
        ho]
      rw [← h]
      congr 1
      simp

/-- When the loop of `JsonPathExtractor.ExtractLabels` returns, the body has returned for
every path. -/
theorem JsonPathExtractor.labelsLoop_returns (L : Libraries) (json : String)
    (paths : List String) :
    ∀ (i : Nat) (labels out : List String),
      JsonPathExtractor.labelsLoop L json paths i labels = .ret out →
      ∀ path ∈ paths, ∃ o, JsonPathExtractor.labelOf L json path = .ret o := by
  induction paths with
  | nil => intro i labels out _ path hmem; cases hmem
  | cons p rest ih =>
    intro i labels out h path hmem
    simp only [JsonPathExtractor.labelsLoop] at h
    cases ho : JsonPathExtractor.labelOf L json p with
    | panicked msg => simp [ho] at h
    | ret o =>
      rcases List.mem_cons.mp hmem with rfl | hmem
      · exact ⟨o, ho⟩
      · rw [ho] at h
        cases o with
        | none => exact ih _ _ _ h path hmem
        | some l => exact ih _ _ _ h path hmem

/-- The method `JsonPathExtractor.ExtractLabels` when the body of its loop returns for every
path: one slot for each path, in path order, and no error. -/
theorem JsonPathExtractor.ExtractLabels_eq (L : Libraries) (json : String)
    (paths : List String)
    (hret : ∀ path ∈ paths, ∃ o, JsonPathExtractor.labelOf L json path = .ret o) :
    JsonPathExtractor.ExtractLabels L json paths
      = .ret (paths.map (JsonPathExtractor.slot L json), none) := by
  have h := JsonPathExtractor.labelsLoop_eq L json paths hret []
  simp only [List.length_nil, List.nil_append] at h
  simp only [JsonPathExtractor.ExtractLabels, h]

/-- The slot of a path that compiles, evaluates and has a first match: the raw text of
the match, unquoted when `Unquote` accepts it. -/
theorem JsonPathExtractor.slot_of_match (L : Libraries) (json path : String) (p : L.Path)
    (eval e2 : L.Eval) (r : Result)
    (hp : JsonPathExtractor.compilePath L path = .ret (.ok p))
    (he : L.EvalPathsInBytes json p = .ok eval)
    (hn : L.evalNext eval = ((some r, true), e2)) :
    JsonPathExtractor.slot L json path =
      match L.Unquote r.Value with
      | .ok l => l
      | .error _ => r.Value := by
  simp only [JsonPathExtractor.slot, JsonPathExtractor.labelOf, hp, he, hn]
  cases L.Unquote r.Value <;> rfl

/-- The slot of a path that compiles and evaluates but has no match is empty. -/
theorem JsonPathExtractor.slot_of_no_match (L : Libraries) (json path : String) (p : L.Path)
    (eval : L.Eval)
    (hp : JsonPathExtractor.compilePath L path = .ret (.ok p))
    (he : L.EvalPathsInBytes json p = .ok eval)
    (hn : (L.evalNext eval).1.1 = none ∨ (L.evalNext eval).1.2 = false) :
    JsonPathExtractor.slot L json path = "" := by
  simp only [JsonPathExtractor.slot, JsonPathExtractor.labelOf, hp, he]
  rcases hx : L.evalNext eval with ⟨⟨r, ok⟩, e2⟩
  rw [hx] at hn
  simp only at hn
  rcases hn with rfl | rfl
  · rfl
  · cases r <;> rfl

/-- C4, counterexample: a label path that resolves to the array of the strings `a` and `b`
does not give the one label value `ab`. The jq backend gives the two label values `a` and
`b` for the one path, the JSON-path backend gives the raw text of the array as the one
label value. -/
theorem array_label_is_not_concatenated :
    JqExtractor.ExtractLabels fragment (Fragment.text Fragment.listDoc) ["$.l"]
        = .ret (["a", "b"], none) ∧
      JsonPathExtractor.ExtractLabels fragment (Fragment.text Fragment.listDoc) ["$.l"]
        = .ret (["[\"a\",\"b\"]"], none) := by
  decide

/-- C4, amended: when `ExtractLabels` succeeds, the result follows the path order, and
* with the jq backend it is the concatenation of the label values of the paths, where a
  path resolving to a string has that string as its one label value and a path resolving
  to an array of strings has each entry of the array, in array order, as a label value
  of its own;
* with the JSON-path backend it has exactly one slot for each path, the slot of a path
  with a first match being the raw text of that match, unquoted when `Unquote` accepts
  it (the contents of a plain string, the text of the whole array for an array). -/
theorem labels_follow_paths (L : Libraries) (json : String) (paths : List String)
    (labels : List String) :
    (JqExtractor.ExtractLabels L json paths = .ret (labels, none) →
        ∃ (input : GoVal) (parts : List (List String)),
          L.Unmarshal json = .ok input ∧
          List.Forall₂ (fun path part => ∃ v,
            JqExtractor.extract L input (sliceFrom1 path) = (v, none) ∧
              labelValuesOf v = some part) paths parts ∧
          labels = parts.flatten) ∧
      (∀ err, JsonPathExtractor.ExtractLabels L json paths = .ret (labels, err) →
        err = none ∧ labels.length = paths.length ∧
          labels = paths.map (JsonPathExtractor.slot L json)) ∧
      (∀ (path : String) (p : L.Path) (eval e2 : L.Eval) (r : Result),
        JsonPathExtractor.compilePath L path = .ret (.ok p) →
        L.EvalPathsInBytes json p = .ok eval →
        L.evalNext eval = ((some r, true), e2) →
        JsonPathExtractor.slot L json path =
          match L.Unquote r.Value with
          | .ok l => l
          | .error _ => r.Value) := by
  refine ⟨?_, ?_, ?_⟩
  · intro h
    simp only [JqExtractor.ExtractLabels] at h
    cases hu : L.Unmarshal json with
    | error err => simp [hu] at h
    | ok input =>
      rw [hu] at h
      obtain ⟨parts, hparts, hl⟩ := JqExtractor.labelsLoop_ok L input paths [] labels h
      exact ⟨input, parts, rfl, hparts, by simpa using hl⟩
  · intro err h
    have hret : ∀ path ∈ paths, ∃ o, JsonPathExtractor.labelOf L json path = .ret o := by
      simp only [JsonPathExtractor.ExtractLabels] at h
      cases hl : JsonPathExtractor.labelsLoop L json paths 0 (List.replicate paths.length "") with
      | panicked msg => simp [hl] at h
      | ret out => exact JsonPathExtractor.labelsLoop_returns L json paths _ _ _ hl
    rw [JsonPathExtractor.ExtractLabels_eq L json paths hret] at h
    simp only [Go.ret.injEq, Prod.mk.injEq] at h
    obtain ⟨h1, h2⟩ := h
    exact ⟨h2.symm, by simp [← h1], h1.symm⟩
  · intro path p eval e2 r hp he hn
    exact JsonPathExtractor.slot_of_match L json path p eval e2 r hp he hn

/-- C4, amended, at a concrete input: on the payload with the array of `a` and `b` under
`l` and the one path `$.l`, the jq backend succeeds with the label values of the array, and
the JSON-path backend returns one slot and no error. -/
theorem labels_follow_paths_witness :
    (∃ (input : GoVal) (parts : List (List String)),
        fragment.Unmarshal (Fragment.text Fragment.listDoc) = .ok input ∧
        List.Forall₂ (fun path part => ∃ v,
          JqExtractor.extract fragment input (sliceFrom1 path) = (v, none) ∧
            labelValuesOf v = some part) ["$.l"] parts ∧
        ["a", "b"] = parts.flatten) ∧
      ((none : Option GoError) = none ∧ ["[\"a\",\"b\"]"].length = ["$.l"].length ∧
        ["[\"a\",\"b\"]"] = ["$.l"].map
          (JsonPathExtractor.slot fragment (Fragment.text Fragment.listDoc))) :=
  ⟨(labels_follow_paths fragment (Fragment.text Fragment.listDoc) ["$.l"] ["a", "b"]).1
      (by decide),
    (labels_follow_paths fragment (Fragment.text Fragment.listDoc) ["$.l"]
      ["[\"a\",\"b\"]"]).2.1 none (by decide)⟩

/-- C5, counterexample: with the jq backend a label path that matches nothing makes
`ExtractLabels` fail. On the payload of `itemA` the path `$.zz` (no such field, jq yields
null) and the path `$empty` (jq yields nothing) each give an error and no label, the
label of `$.id` included; and with the JSON-path backend an empty path in the list makes
`ExtractLabels` panic. -/
theorem jq_missing_label_path_fails :
    JqExtractor.ExtractLabels fragment (Fragment.text Fragment.itemA) ["$.id", "$.zz"]
        = .ret ([], some (JqExtractor.typeError "$.zz")) ∧
      JqExtractor.ExtractLabels fragment (Fragment.text Fragment.itemA) ["$.id", "$empty"]
        = .ret ([], some (JqExtractor.typeError "$empty")) ∧
      JsonPathExtractor.ExtractLabels fragment (Fragment.text Fragment.itemA) ["$.zz", ""]
        = .panicked "index out of range [-1]" := by
  decide

/-- C5, amended: with the JSON-path backend, for every payload and every list of non-empty
label paths, `ExtractLabels` returns without error one slot for each path, in path order;
the slot of a path is what `ExtractLabels` returns for that path alone, whatever the other
paths are, and it is the empty string for a path that compiles and evaluates but has no
match. With the jq backend, on a payload that unmarshals, a path for which jq yields null
or nothing makes `ExtractLabels` return an error and no label. -/
theorem missing_label_path_gives_empty_slot (L : Libraries) (json : String)
    (paths : List String) (hne : ∀ path ∈ paths, 1 ≤ len path) :
    JsonPathExtractor.ExtractLabels L json paths
        = .ret (paths.map (JsonPathExtractor.slot L json), none) ∧
      (∀ path ∈ paths, JsonPathExtractor.ExtractLabels L json [path]
        = .ret ([JsonPathExtractor.slot L json path], none)) ∧
      (∀ (path : String) (p : L.Path) (eval : L.Eval),
        JsonPathExtractor.compilePath L path = .ret (.ok p) →
        L.EvalPathsInBytes json p = .ok eval →
        ((L.evalNext eval).1.1 = none ∨ (L.evalNext eval).1.2 = false) →
        JsonPathExtractor.slot L json path = "") ∧
      (∀ input, L.Unmarshal json = .ok input →
        (∃ path ∈ paths, JqExtractor.extract L input (sliceFrom1 path) = (.nil, none)) →
        ∃ err, JqExtractor.ExtractLabels L json paths = .ret ([], some err)) := by
  refine ⟨?_, ?_, ?_, ?_⟩
  · exact JsonPathExtractor.ExtractLabels_eq L json paths
      (fun path hp => JsonPathExtractor.labelOf_returns L json path (hne path hp))
  · intro path hp
    exact JsonPathExtractor.ExtractLabels_eq L json [path]
      (fun q hq => by
        rw [List.mem_singleton] at hq
        subst hq
        exact JsonPathExtractor.labelOf_returns L json q (hne q hp))
  · intro path p eval hp he hn
    exact JsonPathExtractor.slot_of_no_match L json path p eval hp he hn
  · intro input hu hbad
    obtain ⟨path, hmem, hx⟩ := hbad
    simp only [JqExtractor.ExtractLabels, hu]
    exact JqExtractor.labelsLoop_error L input paths hne ⟨path, hmem, .nil, hx, rfl⟩ []

/-- C5, amended, at a concrete input: on the payload of `itemA` and the paths `$.id` and
`$.zz`, the JSON-path backend returns the label `a` and an empty slot. -/
theorem missing_label_path_gives_empty_slot_witness :
    JsonPathExtractor.ExtractLabels fragment (Fragment.text Fragment.itemA) ["$.id", "$.zz"]
        = .ret (["$.id", "$.zz"].map
            (JsonPathExtractor.slot fragment (Fragment.text Fragment.itemA)), none) ∧
      ["$.id", "$.zz"].map (JsonPathExtractor.slot fragment (Fragment.text Fragment.itemA))
        = ["a", ""] :=
  ⟨(missing_label_path_gives_empty_slot fragment (Fragment.text Fragment.itemA)
      ["$.id", "$.zz"] (by decide)).1, by decide⟩

/-- C6, counterexample: with the JSON-path backend a label path that resolves to a number
gives no error. On the payload with the number 5 under `n`, the path `$.n` gives the label
value `5` and a nil error; and with the jq backend an empty path before `$.n` makes
`ExtractLabels` panic instead of returning an error. -/
theorem jsonpath_number_label_is_no_error :
    JsonPathExtractor.ExtractLabels fragment (Fragment.text Fragment.numberDoc) ["$.n"]
        = .ret (["5"], none) ∧
      JqExtractor.ExtractLabels fragment (Fragment.text Fragment.numberDoc) ["", "$.n"]
        = .panicked "slice bounds out of range [1:0]" := by
  decide

/-- C6, amended: with the jq backend, for every payload that unmarshals and every list of
non-empty label paths, `ExtractLabels` returns an error (and no label) whenever some path
resolves to an array with an entry that is not a string, or to a value that is neither a
string nor an array. With the JSON-path backend `ExtractLabels` on the same non-empty
paths returns its slots and never an error. -/
theorem label_of_wrong_type_fails_with_jq (L : Libraries) (json : String)
    (paths : List String) (input : GoVal)
    (hjson : L.Unmarshal json = .ok input)
    (hne : ∀ path ∈ paths, 1 ≤ len path)
    (hbad : ∃ path ∈ paths, ∃ v,
      JqExtractor.extract L input (sliceFrom1 path) = (v, none) ∧ NotALabel v) :
    (∃ err, JqExtractor.ExtractLabels L json paths = .ret ([], some err)) ∧
      (∃ labels, JsonPathExtractor.ExtractLabels L json paths = .ret (labels, none)) := by
  refine ⟨?_, ?_⟩
  · obtain ⟨path, hmem, v, hv, hnot⟩ := hbad
    simp only [JqExtractor.ExtractLabels, hjson]
    exact JqExtractor.labelsLoop_error L input paths hne
      ⟨path, hmem, v, hv, (labelValuesOf_eq_none_iff v).mpr hnot⟩ []
  · exact ⟨_, JsonPathExtractor.ExtractLabels_eq L json paths
      (fun path hp => JsonPathExtractor.labelOf_returns L json path (hne path hp))⟩

/-- C6, amended, at a concrete input: on the payload with the number 5 under `n` and the
paths `$.n`, the jq backend returns an error and the JSON-path backend returns none. -/
theorem label_of_wrong_type_fails_with_jq_witness :
    (∃ err, JqExtractor.ExtractLabels fragment (Fragment.text Fragment.numberDoc) ["$.n"]
        = .ret ([], some err)) ∧
      (∃ labels, JsonPathExtractor.ExtractLabels fragment (Fragment.text Fragment.numberDoc)
        ["$.n"] = .ret (labels, none)) :=
  label_of_wrong_type_fails_with_jq fragment (Fragment.text Fragment.numberDoc) ["$.n"]
    Fragment.numberDoc rfl (by decide)
    ⟨"$.n", by decide, Fragment.num 5, rfl, Or.inr ⟨fun s h => (by cases h), fun vs h => (by cases h)⟩⟩

/-- C7, counterexample: with the jq backend a value path that matches nothing gives no
error. On the payload of `itemA`, the path `$.zz` (no such field, jq yields null) and the
path `$empty` (jq yields nothing) both make `ExtractValue` return NaN with a nil error, and
`Collect` sends a NaN sample for the value-mode definition with the path `$.zz`. -/
theorem jq_missing_value_is_nan :
    JqExtractor.ExtractValue fragment (Fragment.text Fragment.itemA) "$.zz" = (.NaN, none) ∧
      JqExtractor.ExtractValue fragment (Fragment.text Fragment.itemA) "$empty"
        = (.NaN, none) ∧
      JsonMetricCollector.Collect fragment 1
          (JsonMetricCollector.mk [missingValue] (Fragment.text Fragment.itemA))
        = Run.mk [Metric.mk plainDesc .NaN []] .returned := by
  decide

/-- C7, amended: with the JSON-path backend, for a path that begins with `$` and compiles,
and a payload whose evaluator yields no match for it and holds no error, `ExtractValue`
returns `-1` with the error `Path not found`, and `Collect` sends nothing for a value-mode
definition with this path and goes on with the later definitions. With the jq backend, on
a payload that unmarshals, a path for which jq yields null or nothing makes `ExtractValue`
return NaN and no error. -/
theorem missing_value_path (L : Libraries) (json path : String) (p : L.Path) (eval : L.Eval)
    (hdollar : byteAt path 0 = some '$')
    (hcompile : JsonPathExtractor.compilePath L path = .ret (.ok p))
    (heval : L.EvalPathsInBytes json p = .ok eval)
    (hnone : (L.evalNext eval).1.1 = none ∨ (L.evalNext eval).1.2 = false)
    (hclean : L.evalError (L.evalNext eval).2 = none) :
    JsonPathExtractor.ExtractValue L json path = .ret (minusOne, some "Path not found") ∧
      (∀ (fuel : Nat) (m : JsonMetric) (rest : List JsonMetric) (sent : List Metric),
        m.ValueExtractorPath = "" → m.Extractor = .jsonPath → m.KeyExtractorPath = path →
        collectLoop L fuel json (m :: rest) sent = collectLoop L fuel json rest sent) ∧
      (∀ input, L.Unmarshal json = .ok input →
        JqExtractor.extract L input (sliceFrom1 path) = (.nil, none) →
        JqExtractor.ExtractValue L json path = (.NaN, none)) := by
  have hlen : ¬ (len path < 1 ∨ byteAt path 0 ≠ some '$') := by
    intro h
    rcases h with h | h
    · have : path.data = [] := List.length_eq_zero.mp (by simp only [len] at h; omega)
      simp [byteAt, this] at hdollar
    · exact h hdollar
  have hvalue : JsonPathExtractor.ExtractValue L json path
      = .ret (minusOne, some "Path not found") := by
    simp only [JsonPathExtractor.ExtractValue, if_neg hlen, hcompile, heval]
    rcases hx : L.evalNext eval with ⟨⟨r, ok⟩, e2⟩
    rw [hx] at hnone hclean
    simp only at hnone hclean
    rcases hnone with rfl | rfl
    · simp only [hclean]
    · cases r <;> simp only [hclean]
  refine ⟨hvalue, ?_, ?_⟩
  · intro fuel m rest sent hmode hjp hkey
    subst hkey
    simp only [collectLoop, if_pos hmode, hjp, Extractor.ExtractValue, hvalue]
  · intro input hu hx
    simp only [JqExtractor.ExtractValue, if_neg hlen, hu, hx, JqExtractor.sanitizeValue]

/-- C7, amended, at a concrete input: on the payload of `itemA` the JSON-path backend
answers `Path not found` for the path `$.zz`. -/
theorem missing_value_path_witness :
    JsonPathExtractor.ExtractValue fragment (Fragment.text Fragment.itemA) "$.zz"
      = .ret (minusOne, some "Path not found") :=
  (missing_value_path fragment (Fragment.text Fragment.itemA) "$.zz" "$.zz+"
    (Fragment.Eval.mk [] none) (by decide) rfl rfl (Or.inl rfl) rfl).1

/-- The inner part of a string between two double quotes is the string. -/
theorem sliceInner_plainQuoted (s : String) :
    sliceInner (plainQuoted s) = s ∧ ¬ len (plainQuoted s) < 2 := by
  have hdata : (plainQuoted s).data = Char.ofNat 34 :: (s.data ++ [Char.ofNat 34]) := by
    simp [plainQuoted, String.data_append]
  constructor
  · simp only [sliceInner, len, hdata, List.drop_succ_cons, List.drop_zero, List.length_cons,
      List.length_append, List.length_singleton, List.length_nil]
    have : s.data.length + (0 + 1) + 1 - 2 = s.data.length := by omega
    rw [this, List.take_left']
    rfl
  · simp only [len, hdata, List.length_cons, List.length_append, List.length_singleton]
    omega

/-- C8, counterexample: the two backends differ on a JSON string whose contents are a
quoted numeral. For the string with the contents `"5"` (quotes included) the jq backend
unquotes the contents and gives 5; the JSON-path backend drops the first and the last
byte of the raw text, is left with the two escaped quotes around the 5, and fails. -/
theorem backends_differ_on_quoted_contents :
    JqExtractor.sanitizeValue fragment (.string "\"5\"") = (.val 5, none) ∧
      Fragment.resultOf (.string "\"5\"") = Result.mk .JsonString "\"\\\"5\\\"\"" ∧
      ∃ err, JsonPathExtractor.sanitizeValue fragment (Fragment.resultOf (.string "\"5\""))
        = .ret (minusOne, some err) := by
  refine ⟨by decide, by decide, _, rfl⟩

/-- C8, amended: the sanitizer of each backend follows the fixed rules. For the jq backend:
a number gives its value; a string gives the float parsed from its contents after the
surrounding quotes are dropped, and fails when they do not parse; null gives NaN; true
gives 1 and false gives 0; an array or an object gives an error. For the JSON-path backend,
on the raw text of the match: a number gives the float parsed from its text; a string gives
the float parsed from its text without the first and the last byte, and fails when that
does not parse; null gives NaN; a boolean gives 1 or 0 as `ParseBool` reads it; an object
or an array, whose text `ParseFloat` rejects, gives an error. The two backends give the
same result for a string written without escapes whose contents `Unquote` rejects. -/
theorem sanitize_rules (L : Libraries) :
    ((∀ x, JqExtractor.sanitizeValue L (.float64 x) = (x, none)) ∧
      (∀ s x, L.ParseFloat (dropQuotes L s) = .ok x →
        JqExtractor.sanitizeValue L (.string s) = (x, none)) ∧
      (∀ s e, L.ParseFloat (dropQuotes L s) = .error e →
        JqExtractor.sanitizeValue L (.string s) = (minusOne, some e)) ∧
      JqExtractor.sanitizeValue L .nil = (.NaN, none) ∧
      JqExtractor.sanitizeValue L (.bool true) = (.val 1, none) ∧
      JqExtractor.sanitizeValue L (.bool false) = (.val 0, none) ∧
      (∀ vs, JqExtractor.sanitizeValue L (.slice vs)
        = (minusOne, some "error while sanitizing value unknown type")) ∧
      (∀ kvs, JqExtractor.sanitizeValue L (.map kvs)
        = (minusOne, some "error while sanitizing value unknown type"))) ∧
    ((∀ raw x, L.ParseFloat raw = .ok x →
        JsonPathExtractor.sanitizeValue L (Result.mk .JsonNumber raw) = .ret (x, none)) ∧
      (∀ raw x, 2 ≤ len raw → L.ParseFloat (sliceInner raw) = .ok x →
        JsonPathExtractor.sanitizeValue L (Result.mk .JsonString raw) = .ret (x, none)) ∧
      (∀ raw e, 2 ≤ len raw → L.ParseFloat (sliceInner raw) = .error e →
        JsonPathExtractor.sanitizeValue L (Result.mk .JsonString raw)
          = .ret (minusOne, some (parseValueError L (sliceInner raw) e))) ∧
      (∀ raw, JsonPathExtractor.sanitizeValue L (Result.mk .JsonNull raw) = .ret (.NaN, none)) ∧
      (∀ raw, L.ParseBool raw = .ok true →
        JsonPathExtractor.sanitizeValue L (Result.mk .JsonBool raw) = .ret (.val 1, none)) ∧
      (∀ raw, L.ParseBool raw = .ok false →
        JsonPathExtractor.sanitizeValue L (Result.mk .JsonBool raw) = .ret (.val 0, none)) ∧
      (∀ raw e, L.ParseFloat raw = .error e →
        JsonPathExtractor.sanitizeValue L (Result.mk .JsonObject raw)
            = .ret (minusOne, some (parseValueError L raw e)) ∧
          JsonPathExtractor.sanitizeValue L (Result.mk .JsonArray raw)
            = .ret (minusOne, some (parseValueError L raw e)))) ∧
    ((∀ s e x, L.Unquote s = .error e → L.ParseFloat s = .ok x →
        JqExtractor.sanitizeValue L (.string s) = (x, none) ∧
          JsonPathExtractor.sanitizeValue L (Result.mk .JsonString (plainQuoted s))
            = .ret (x, none)) ∧
      (∀ s e e2, L.Unquote s = .error e → L.ParseFloat s = .error e2 →
        JqExtractor.sanitizeValue L (.string s) = (minusOne, some e2) ∧
          JsonPathExtractor.sanitizeValue L (Result.mk .JsonString (plainQuoted s))
            = .ret (minusOne, some (parseValueError L s e2)))) := by
  refine ⟨⟨fun x => rfl, ?_, ?_, rfl, rfl, rfl, fun vs => rfl, fun kvs => rfl⟩,
    ⟨?_, ?_, ?_, fun raw => rfl, ?_, ?_, ?_⟩, ⟨?_, ?_⟩⟩
  · intro s x h
    simp only [dropQuotes] at h
    simp only [JqExtractor.sanitizeValue, h]
  · intro s e h
    simp only [dropQuotes] at h
    simp only [JqExtractor.sanitizeValue, h]
  · intro raw x h
    simp only [JsonPathExtractor.sanitizeValue, JsonPathExtractor.parseValue, h,
      JsonPathExtractor.checked]
  · intro raw x hlen h
    have hnot : ¬ len raw < 2 := by omega
    simp only [JsonPathExtractor.sanitizeValue, if_neg hnot, JsonPathExtractor.parseValue, h,
      JsonPathExtractor.checked]
  · intro raw e hlen h
    have hnot : ¬ len raw < 2 := by omega
    simp only [JsonPathExtractor.sanitizeValue, if_neg hnot, JsonPathExtractor.parseValue, h,
      JsonPathExtractor.checked]
  · intro raw h
    simp [JsonPathExtractor.sanitizeValue, h]
  · intro raw h
    simp [JsonPathExtractor.sanitizeValue, h]
  · intro raw e h
    simp only [JsonPathExtractor.sanitizeValue, JsonPathExtractor.parseValue, h,
      JsonPathExtractor.checked, and_self]
  · intro s e x hu hp
    obtain ⟨hin, hlen⟩ := sliceInner_plainQuoted s
    simp only [JqExtractor.sanitizeValue, hu, hp, JsonPathExtractor.sanitizeValue, if_neg hlen,
      hin, JsonPathExtractor.parseValue, JsonPathExtractor.checked, and_self]
  · intro s e e2 hu hp
    obtain ⟨hin, hlen⟩ := sliceInner_plainQuoted s
    simp only [JqExtractor.sanitizeValue, hu, hp, JsonPathExtractor.sanitizeValue, if_neg hlen,
      hin, JsonPathExtractor.parseValue, JsonPathExtractor.checked, and_self]

/-- C8, amended, at a concrete input: the JSON string `"3.14"` gives 3.14 with both
backends, from the contents `3.14` and from the raw text with its two quotes. -/
theorem sanitize_rules_witness :
    JqExtractor.sanitizeValue fragment (.string "3.14") = (.val (mkRat 157 50), none) ∧
      JsonPathExtractor.sanitizeValue fragment (Result.mk .JsonString (plainQuoted "3.14"))
        = .ret (.val (mkRat 157 50), none) :=
  (sanitize_rules fragment).2.2.1 "3.14" "invalid syntax" (.val (mkRat 157 50)) (by decide)
    (by decide)

/-- An `int64` expression whose mathematical value fits in 64 bits has that value. -/
theorem int64_of_fits (x : Int) (hlow : -(2 ^ 63) ≤ x) (hhigh : x < 2 ^ 63) : int64 x = x := by
  unfold int64
  omega

set_option maxRecDepth 100000

/-- C11, on the code: a later call does not put the millisecond timestamp of the recorded
instant in place of the bare `from` token, although the line that renders the token carries
the comment `Unix millisecond epoch`. The first call on the target, at 1.5 seconds after
the epoch, records that instant; the second call replaces the token with `1000`, the whole
seconds times 1000 (`replaceTime.Unix()*1e3`), while the millisecond timestamp of the
recorded instant is 1500. -/
theorem from_token_drops_milliseconds :
    (computeTarget templating 0
        (computeTarget templating 0 noTimestamps (Time.mk 1 500000000) exampleTarget).2
        (Time.mk 2 0) exampleTarget).1
        = "http://host/api?from=1000&to=2000" ∧
      FormatInt (millisecondTimestamp (Time.mk 1 500000000)) = "1500" := by
  decide

/-- What the code computes for a bare `from` token of a target (a match of `re` with `from`
as its first group and no `date` group): the string that `computeTarget` puts in its place is
* `0` when the map has no entry for the target and `scrapeDurationSeconds` is 0;
* when the map has an entry for the target, the decimal text of 1000 times the Unix
  seconds of the recorded instant, in `int64` arithmetic: a value in milliseconds without
  the part of the instant below the second;
* so, in a call that follows a call on the same target at the instant `now`, 1000 times the
  Unix seconds of `now`.
A call records its `now` under the target string it was given, over any earlier entry, and
leaves the entries of the other targets as they are; a target with the token as its only
match is returned with every occurrence of the token replaced. -/
theorem from_token_resolution (E : TemplateLibraries) (scrapeDurationSeconds : Int)
    (scrapeTimestamps : ScrapeTimestamps) (now : Time) (target : String) (m : Submatch)
    (hfrom : m.kind = "from") (hbare : m.date = "") :
    (scrapeTimestamps target = none → scrapeDurationSeconds = 0 →
        replacement E scrapeDurationSeconds scrapeTimestamps target now m = "0") ∧
      (∀ lastScrapeTime, scrapeTimestamps target = some lastScrapeTime →
        replacement E scrapeDurationSeconds scrapeTimestamps target now m
          = FormatInt (int64 (lastScrapeTime.Unix * 1000))) ∧
      (∀ later : Time,
        replacement E scrapeDurationSeconds
            (computeTarget E scrapeDurationSeconds scrapeTimestamps now target).2 target later m
          = FormatInt (int64 (now.Unix * 1000))) ∧
      (computeTarget E scrapeDurationSeconds scrapeTimestamps now target).2 target = some now ∧
      (∀ (other : String) (otherNow : Time), other ≠ target →
        (computeTarget E scrapeDurationSeconds scrapeTimestamps otherNow other).2 target
          = scrapeTimestamps target) ∧
      (E.FindAllStringSubmatch target = [m] →
        (computeTarget E scrapeDurationSeconds scrapeTimestamps now target).1
          = E.Replace target m.whole
              (replacement E scrapeDurationSeconds scrapeTimestamps target now m)) := by
  have hentry : ∀ (stamps : ScrapeTimestamps) (t at_ : Time), stamps target = some t →
      replacement E scrapeDurationSeconds stamps target at_ m
        = FormatInt (int64 (t.Unix * 1000)) := by
    intro stamps t at_ h
    simp only [replacement, hfrom, hbare, getLastScrapeTime, h, if_true, ne_eq,
      not_true_eq_false, if_false]
  have hrecorded :
      (computeTarget E scrapeDurationSeconds scrapeTimestamps now target).2 target = some now := by
    simp only [computeTarget, if_true]
  refine ⟨?_, ?_, ?_, hrecorded, ?_, ?_⟩
  · intro hnone hzero
    simp only [replacement, hfrom, hbare, getLastScrapeTime, hnone, hzero, if_true, ne_eq,
      not_true_eq_false, if_false, Time.Unix]
    decide
  · intro lastScrapeTime h
    exact hentry scrapeTimestamps lastScrapeTime now h
  · intro later
    exact hentry _ now later hrecorded
  · intro other otherNow hne
    have : ¬ target = other := fun h => hne h.symm
    simp only [computeTarget, if_neg this]
  · intro hmatches
    simp only [computeTarget, hmatches, List.foldl_cons, List.foldl_nil]

/-- The resolution of the token at a concrete input: on the target with a bare `from` and a
bare `to` token, the token of a first call is replaced with `0`, and the token of a call
after a call at 1.5 seconds after the epoch is replaced with `1000`. -/
theorem from_token_resolution_witness :
    replacement templating 0 noTimestamps exampleTarget (Time.mk 1 500000000) bareFrom = "0" ∧
      replacement templating 0
          (computeTarget templating 0 noTimestamps (Time.mk 1 500000000) exampleTarget).2
          exampleTarget (Time.mk 2 0) bareFrom
        = FormatInt (int64 ((Time.mk 1 500000000).Unix * 1000)) ∧
      FormatInt (int64 ((Time.mk 1 500000000).Unix * 1000)) = "1000" ∧
      (computeTarget templating 0 noTimestamps (Time.mk 1 500000000) exampleTarget).1
        = "http://host/api?from=0&to=1000" :=
  ⟨(from_token_resolution templating 0 noTimestamps (Time.mk 1 500000000) exampleTarget
      bareFrom rfl rfl).1 rfl rfl,
    (from_token_resolution templating 0 noTimestamps (Time.mk 1 500000000) exampleTarget
      bareFrom rfl rfl).2.2.1 (Time.mk 2 0),
    by decide, by decide⟩

/-- C2, counterexample: `ExtractValue` succeeds on every element of the selected array and
`Collect` still sends no sample. On the payload with the array of `itemA` and `itemB` under
`items`, the object path `$.items` gives the array closure and the value path `$.v`
resolves in both elements; the label path `$.zz` resolves in none, so `ExtractLabels`
returns no label and an error, the collector logs it and calls `MustNewConstMetric` with no
label value for the one label of the descriptor, which panics. -/
theorem label_failure_stops_collect :
    JqExtractor.ExtractObject fragment (Fragment.text Fragment.itemsDoc) "$.items"
        = .ret (some (.jqArray [Fragment.itemA, Fragment.itemB] 0), none) ∧
      JqExtractor.ExtractValue fragment (Fragment.text Fragment.itemA) "$.v" = (.val 1, none) ∧
      JqExtractor.ExtractValue fragment (Fragment.text Fragment.itemB) "$.v" = (.val 2, none) ∧
      JqExtractor.ExtractLabels fragment (Fragment.text Fragment.itemA) ["$.zz"]
        = .ret ([], some (JqExtractor.typeError "$.zz")) ∧
      JsonMetricCollector.Collect fragment 3
          (JsonMetricCollector.mk [missingLabelMetric] (Fragment.text Fragment.itemsDoc))
        = Run.mk [] (.panicked "inconsistent label cardinality") := by
  refine ⟨rfl, by decide, by decide, by decide, by decide⟩

/-- With the JSON-path backend on the fragment, the run over the elements of the array
sends the sample of each element, in order, and then panics: the call of the iterator that
finds the evaluator exhausted reads the nil result. -/
theorem jsonpath_collect_panics_at_exhaustion :
    JsonMetricCollector.Collect fragment 5
        (JsonMetricCollector.mk [itemsByJsonPath] (Fragment.text Fragment.itemsDoc))
      = Run.mk [Metric.mk idDesc (.val 1) ["a"], Metric.mk idDesc (.val 2) ["b"]]
          (.panicked nilDereference) := by
  decide

end JsonExporter
